import Mathlib

/-!
Verification of the Amedis booking client and dialogue agent
(`amedis_client.py`, `agent.py`, `tools.py`) against its specification.

The Python code is shallowly embedded: JSON values (the payloads of the
upstream booking API) are modelled by the inductive type `JVal`, Python
dictionaries by association lists with Python's construction-order merge
semantics, and each normalizer / operation of the source is translated
into an executable Lean function of the same name.  Code paths on which
Python raises an exception are modelled with `Except`.

String primitives of the Python standard library (`str.lower`,
`str.strip`, substring tests, `re` searches used by the agent) are
re-implemented on `List Char`; they operate on Unicode code points
exactly as Python does for the character ranges that actually occur in
the repository (ASCII plus the Cyrillic block used by the agent's
keyword vocabulary).  Percent-decoding inside `urllib.parse.parse_qs`
is elided: the values the HAR parser extracts are plain digits and
identifiers, which percent-decoding leaves unchanged.
-/

namespace AmAgent

/-- JSON-like Python values: the payloads flowing through the client.
Numbers are modelled as integers (none of the verified code paths
distinguishes `int` from `float` inside JSON payloads). -/
inductive JVal where
  | null
  | b (x : Bool)
  | n (x : Int)
  | s (x : String)
  | arr (xs : List JVal)
  | obj (fs : List (String × JVal))
  deriving Repr

/-- A Python dict as it comes out of `json.loads`: an insertion-ordered
association list.  `json.loads` never produces duplicate keys. -/
abbrev Fields := List (String × JVal)

/-- Python hashability of a JSON value: `None`, booleans, numbers and
strings are hashable; lists and dicts are not — hashing them (for a
set membership test) raises `TypeError`. -/
def JVal.hashable : JVal → Bool
  | .arr _ => false
  | .obj _ => false
  | _ => true

/-- Python `==` at the comparison sites of the embedded code: the
seen-set membership test of the doctor deduplication (which only ever
compares hashable scalars, since hashing a container raises first) and
the `method == "POST"` check of the HAR parser (whose right operand is
a string).  Booleans compare equal to the integers 0 and 1, exactly as
in Python; the catch-all `false` covers container operands, which at
these sites Python would also report unequal (to a string) or never
compare (unhashable). -/
def pyEq : JVal → JVal → Bool
  | .null, .null => true
  | .b x, .b y => x == y
  | .b x, .n y => (if x then (1 : Int) else 0) == y
  | .n x, .b y => x == (if y then (1 : Int) else 0)
  | .n x, .n y => x == y
  | .s x, .s y => x == y
  | _, _ => false

/-- Canonical key of a hashable scalar: Python's `==`/`hash` treat a
boolean as its integer value. -/
inductive ScalarKey where
  | nullK
  | intK (k : Int)
  | strK (s : String)
  deriving DecidableEq, Repr

/-- The canonical key of a JSON value (`none` for the unhashable
containers). -/
def pyKey : JVal → Option ScalarKey
  | .null => some .nullK
  | .b x => some (.intK (if x then 1 else 0))
  | .n x => some (.intK x)
  | .s x => some (.strK x)
  | _ => Option.none

/-- Python truthiness (`bool(v)`) for JSON values. -/
def JVal.truthy : JVal → Bool
  | .null => false
  | .b x => x
  | .n x => x != 0
  | .s x => x.data != []
  | .arr xs => !xs.isEmpty
  | .obj fs => !fs.isEmpty

/-- Python `a or b` on JSON values: `b` when `a` is falsy, else `a`. -/
def pyOr (a b : JVal) : JVal := if a.truthy then a else b

/-- `isinstance(v, list)`. -/
def JVal.isArr : JVal → Bool
  | .arr _ => true
  | _ => false

/-- `isinstance(v, dict)`. -/
def JVal.isObj : JVal → Bool
  | .obj _ => true
  | _ => false

/-- Python `d.get(k)`: `None` when the key is absent. -/
def dget (fs : Fields) (k : String) : JVal :=
  match fs.find? (fun p => p.1 == k) with
  | some p => p.2
  | none => .null

/-- Python `d.get(k, dflt)`. -/
def dgetD (fs : Fields) (k : String) (dflt : JVal) : JVal :=
  match fs.find? (fun p => p.1 == k) with
  | some p => p.2
  | none => dflt

/-- Python `d[k] = v` on an insertion-ordered dict: overwrite in place
when the key exists, append otherwise. -/
def dinsert (fs : Fields) (k : String) (v : JVal) : Fields :=
  if fs.any (fun p => p.1 == k) then
    fs.map (fun p => if p.1 == k then (k, v) else p)
  else fs ++ [(k, v)]

/-- Python dict merge `{**a, **b}`. -/
def dmerge (a b : Fields) : Fields :=
  b.foldl (fun acc p => dinsert acc p.1 p.2) a

/-- `for x in v` when Python accepts `v` as an iterable: lists yield
their elements, strings their characters, dicts their keys.  `none`
models the `TypeError` Python raises on other values. -/
def pyIterate : JVal → Option (List JVal)
  | .arr xs => some xs
  | .s str => some (str.data.map (fun c => .s (String.mk [c])))
  | .obj fs => some (fs.map (fun p => .s p.1))
  | _ => none

/-- Python `repr` of a JSON value (used only through `pyStr` below,
for f-string interpolation of non-string values; string escaping inside
`repr` is elided). -/
def pyRepr : JVal → String
  | .null => "None"
  | .b true => "True"
  | .b false => "False"
  | .n k => toString k
  | .s str => "'" ++ str ++ "'"
  | .arr xs =>
      "[" ++ String.intercalate ", " (xs.attach.map (fun x => pyRepr x.1)) ++ "]"
  | .obj fs =>
      "\x7b" ++
        String.intercalate ", "
          (fs.attach.map (fun p => "'" ++ p.1.1 ++ "': " ++ pyRepr p.1.2)) ++
      "\x7d"
decreasing_by
  · simp_wf
    have := List.sizeOf_lt_of_mem x.2
    omega
  · simp_wf
    obtain ⟨⟨k, v⟩, hm⟩ := p
    have := List.sizeOf_lt_of_mem hm
    simp [Prod.mk.sizeOf_spec] at this ⊢
    omega

/-- Python `str(v)` / f-string interpolation of a JSON value. -/
def pyStr : JVal → String
  | .s str => str
  | v => pyRepr v

/-- Python `str.lower` restricted to the alphabets the agent uses:
ASCII letters and the Cyrillic block U+0400–U+042F. -/
def lowerChar (c : Char) : Char :=
  if 'A' ≤ c ∧ c ≤ 'Z' then Char.ofNat (c.toNat + 32)
  else if 0x410 ≤ c.toNat ∧ c.toNat ≤ 0x42F then Char.ofNat (c.toNat + 0x20)
  else if 0x400 ≤ c.toNat ∧ c.toNat ≤ 0x40F then Char.ofNat (c.toNat + 0x50)
  else c

/-- Python `s.lower()`. -/
def pyLower (s : String) : String := String.mk (s.data.map lowerChar)

/-- The whitespace recognised by Python `str.strip` and regex `\s`
(ASCII portion). -/
def isPySpace (c : Char) : Bool :=
  c = ' ' ∨ c = '\t' ∨ c = '\n' ∨ c = '\r' ∨ c = '\x0b' ∨ c = '\x0c'

/-- Python `s.strip()`. -/
def pyStrip (s : String) : String :=
  String.mk (((s.data.dropWhile isPySpace).reverse.dropWhile isPySpace).reverse)

/-- Does `hay` start with `needle`? -/
def leadsChars : List Char → List Char → Bool
  | [], _ => true
  | _ :: _, [] => false
  | a :: as, b :: bs => a == b && leadsChars as bs

/-- Does `needle` occur somewhere in `hay`?  (Python `needle in hay`.) -/
def occursChars (needle : List Char) : List Char → Bool
  | [] => leadsChars needle []
  | c :: cs => leadsChars needle (c :: cs) || occursChars needle cs

/-- Python substring test `needle in hay` on strings. -/
def strIn (needle hay : String) : Bool := occursChars needle.data hay.data

/-- Python `s.endswith(suffix)`. -/
def strEndsWithFn (s suf : String) : Bool :=
  leadsChars suf.data.reverse s.data.reverse

/-- Word characters for the regex `\b` boundary (ASCII portion of
Python `\w`; the messages matched against `\b(\d+)\b` in the agent use
ASCII digits with non-alphanumeric neighbours). -/
def isWordChar (c : Char) : Bool := c.isAlphanum || c = '_'

/-- Numeric value of a run of ASCII digits (`int` on the match). -/
def natOfDigits (cs : List Char) : Nat :=
  cs.foldl (fun a c => a * 10 + (c.toNat - '0'.toNat)) 0

/-- `re.search(r"\b(\d+)\b", s)`: the first maximal digit run with a
word boundary on both sides, as a number.  `prev` is the character
just before the scan position. -/
def findNumAux (prev : Option Char) : List Char → Option Nat
  | [] => none
  | c :: cs =>
    if c.isDigit && (match prev with | none => true | some p => !isWordChar p) then
      let run := (c :: cs).takeWhile Char.isDigit
      let rest := (c :: cs).dropWhile Char.isDigit
      match rest with
      | [] => some (natOfDigits run)
      | d :: _ =>
        if !isWordChar d then some (natOfDigits run)
        else findNumAux (some c) cs
    else findNumAux (some c) cs

/-- First `\b(\d+)\b` match in a message. -/
def findNumberToken (s : String) : Option Nat := findNumAux none s.data

/-! ## Response normalizers (`amedis_client.py`) -/

/-- Canonical direction record produced by `_normalize_directions`. -/
structure Direction where
  id : JVal
  name : JVal
  deriving Repr

/-- Per-element body of `_normalize_directions`: resolve id/name through
the fallback key chains; `none` when the resolved id `is None`. -/
def directionOfItem (fs : Fields) : Option Direction :=
  let i := pyOr (dget fs "id") (pyOr (dget fs "idDirection")
             (pyOr (dget fs "Id") (dget fs "ID")))
  let nm := pyOr (dget fs "name") (pyOr (dget fs "title")
              (pyOr (dget fs "Name") (pyOr (dget fs "Title") (dget fs "direction"))))
  match i with
  | .null => none
  | _ => some ⟨i, nm⟩

/-- The list branch of `_normalize_directions`: non-dict elements are
skipped, as are dicts whose resolved id is `None`. -/
def dirRows (xs : List JVal) : List Direction :=
  xs.foldr
    (fun item acc =>
      match item with
      | .obj fs =>
        match directionOfItem fs with
        | some d => d :: acc
        | none => acc
      | _ => acc)
    []

/-- `_normalize_directions`.  For a dict input the original recurses on
the first wrapper key whose value is a list; that recursive call lands
in the list branch, which is inlined here as `dirRows`. -/
def _normalize_directions (data : JVal) : List Direction :=
  match data with
  | .arr xs => dirRows xs
  | .obj fs =>
    match ["directions", "items", "data", "result"].findSome?
        (fun k => match dget fs k with
          | .arr ys => some ys
          | _ => none) with
    | some ys => dirRows ys
    | none => []
  | _ => []

/-- Canonical doctor record produced by `_normalize_doctors`. -/
structure Doctor where
  id : JVal
  name : JVal
  raw : Fields
  deriving Repr

/-- Per-element body of `_normalize_doctors`. -/
def doctorOfItem (fs : Fields) : Doctor :=
  { id := pyOr (dget fs "id") (pyOr (dget fs "Id")
            (pyOr (dget fs "doctorId") (dget fs "ID"))),
    name := pyOr (dget fs "name") (pyOr (dget fs "fio")
              (pyOr (dget fs "FIO") (pyOr (dget fs "fullName") (.s "")))),
    raw := fs }

/-- The pre-deduplication pass of `_normalize_doctors`: build a record
for each dict element, skipping non-dicts. -/
def doctorRows (xs : List JVal) : List Doctor :=
  xs.foldr
    (fun item acc =>
      match item with
      | .obj fs => doctorOfItem fs :: acc
      | _ => acc)
    []

/-- The deduplication loop of `_normalize_doctors`
(`if doc_id and doc_id not in seen`): a falsy id short-circuits before
the membership test; a truthy id is hashed for the test, so a truthy
unhashable id (a list or dict) raises `TypeError`; otherwise the
doctor is kept exactly when no Python-equal id was seen before. -/
def dedupDoctors : List Doctor → List JVal → Except String (List Doctor)
  | [], _ => .ok []
  | d :: ds, seen =>
    if d.id.truthy then
      if d.id.hashable then
        if seen.any (fun x => pyEq x d.id) then dedupDoctors ds seen
        else (dedupDoctors ds (d.id :: seen)).map (fun rest => d :: rest)
      else .error "TypeError: unhashable type"
    else dedupDoctors ds seen

/-- `_normalize_doctors`.  For a dict input the wrapper value is chosen
by Python `or` over the keys `data`/`items`/`result`/`doctors` (first
truthy value, `[]` when all are falsy) and then iterated; a truthy
non-iterable selection makes the `for` loop raise `TypeError`, and the
deduplication loop itself raises on a truthy unhashable id — both are
modelled by `Except.error`. -/
def _normalize_doctors (data : JVal) : Except String (List Doctor) :=
  match data with
  | .arr xs => dedupDoctors (doctorRows xs) []
  | .obj fs =>
    let sel := pyOr (dget fs "data") (pyOr (dget fs "items")
                 (pyOr (dget fs "result") (pyOr (dget fs "doctors") (.arr []))))
    match pyIterate sel with
    | some xs => dedupDoctors (doctorRows xs) []
    | none => .error "TypeError: object is not iterable"
  | _ => .ok []

/-- Canonical service record produced by `_normalize_services`. -/
structure ServiceRec where
  id : JVal
  name : JVal
  duration : JVal
  raw : Fields
  deriving Repr

/-- Per-element body of `_normalize_services`. -/
def serviceOfItem (fs : Fields) : ServiceRec :=
  { id := pyOr (dget fs "id") (pyOr (dget fs "serviceId") (dget fs "Id")),
    name := pyOr (dget fs "name") (pyOr (dget fs "serviceName")
              (pyOr (dget fs "Name") (pyOr (dget fs "researchText") (.s "")))),
    duration := pyOr (dget fs "duration") (pyOr (dget fs "Duration")
                  (dget fs "timePriemMinutes")),
    raw := fs }

/-- The element loop of `_normalize_services`. -/
def svcRows (xs : List JVal) : List ServiceRec :=
  xs.foldr
    (fun item acc =>
      match item with
      | .obj fs => serviceOfItem fs :: acc
      | _ => acc)
    []

/-- `_normalize_services`: list input is used directly, a dict input
contributes the first wrapper key whose value is a list. -/
def _normalize_services (data : JVal) : List ServiceRec :=
  match data with
  | .arr xs => svcRows xs
  | .obj fs =>
    match ["services", "data", "items", "result"].findSome?
        (fun k => match dget fs k with
          | .arr ys => some ys
          | _ => none) with
    | some ys => svcRows ys
    | none => []
  | _ => []

/-- Canonical slot record produced by `_normalize_slots` (the payload
of `add_slot`): `endAt` and `raw` may be `None`. -/
structure SlotRec where
  startAt : JVal
  endAt : JVal
  raw : JVal
  deriving Repr

/-- The time-combination rule of the nested branch of
`_normalize_slots`: a string of at most 5 characters containing a colon
is prefixed with the owning date, anything else is used verbatim. -/
def combineTime (date : String) (v : JVal) : JVal :=
  match v with
  | .s t =>
    if t.data.length ≤ 5 && t.data.contains ':' then .s (date ++ " " ++ t)
    else .s t
  | _ => v

/-- Block-level metadata: the non-list-valued entries of a day block. -/
def metaOf (fs : Fields) : Fields := fs.filter (fun p => !p.2.isArr)

/-- One slot of the nested branch: resolve start/end through the alias
chains, drop the slot if start is falsy, combine times with the date,
and merge `date`, block metadata and the slot fields (slot fields take
precedence) into `raw`. -/
def slotOfDay (date : String) (meta : Fields) (slotFs : Fields) : Option SlotRec :=
  let start := pyOr (dget slotFs "startAt") (pyOr (dget slotFs "start") (dget slotFs "time"))
  let stop := pyOr (dget slotFs "endAt") (dget slotFs "end")
  if !start.truthy then none
  else some
    { startAt := combineTime date start,
      endAt := combineTime date stop,
      raw := .obj (dmerge (dmerge [("date", .s date)] meta) slotFs) }

/-- All slots of one day block: every list-valued entry is a
`date -> [slot, ...]` map, iterated in insertion order. -/
def blockSlots (block : Fields) : List SlotRec :=
  block.foldr
    (fun p acc =>
      match p.2 with
      | .arr daySlots =>
        (daySlots.filterMap
          (fun sv =>
            match sv with
            | .obj sfs => slotOfDay p.1 (metaOf block) sfs
            | _ => none)) ++ acc
      | _ => acc)
    []

/-- The nested (first) branch of `_normalize_slots`: each top-level
dict maps arbitrary keys to lists of day blocks. -/
def nestedSlots (data : List JVal) : List SlotRec :=
  data.foldr
    (fun item acc =>
      match item with
      | .obj fs =>
        (fs.foldr
          (fun p acc2 =>
            match p.2 with
            | .arr blocks =>
              (blocks.foldr
                (fun bv acc3 =>
                  match bv with
                  | .obj bfs => blockSlots bfs ++ acc3
                  | _ => acc3)
                []) ++ acc2
            | _ => acc2)
          []) ++ acc
      | _ => acc)
    []

/-- The dict (second) branch of `_normalize_slots`: values are lists of
day objects carrying `date`/`Date` and `times`/`Times`. -/
def dictShapeSlots (fs : Fields) : List SlotRec :=
  fs.foldr
    (fun p acc =>
      match p.2 with
      | .arr days =>
        (days.foldr
          (fun dv acc2 =>
            match dv with
            | .obj dfs =>
              let date := pyOr (dget dfs "date") (dget dfs "Date")
              let times := pyOr (dget dfs "times") (pyOr (dget dfs "Times") (.arr []))
              match times with
              | .arr ts =>
                if date.truthy then
                  (ts.filterMap
                    (fun tv =>
                      match tv with
                      | .s t => some
                          { startAt := .s (pyStr date ++ " " ++ t),
                            endAt := .null,
                            raw := .obj [("date", date), ("time", .s t)] }
                      | _ => none)) ++ acc2
                else acc2
              | _ => acc2
            | _ => acc2)
          []) ++ acc
      | _ => acc)
    []

/-- The flat (third) branch of `_normalize_slots`: a list of slot
dicts with direct start/end fields. -/
def flatSlots (data : List JVal) : List SlotRec :=
  data.filterMap
    (fun item =>
      match item with
      | .obj fs =>
        let start := pyOr (dget fs "startAt") (pyOr (dget fs "start") (dget fs "time"))
        let stop := pyOr (dget fs "endAt") (dget fs "end")
        if start.truthy then some { startAt := start, endAt := stop, raw := .obj fs }
        else none
      | _ => none)

/-- `_normalize_slots`: a list input is fed to the nested branch and,
when that yields nothing, to the flat branch; a dict input is fed to
the dict branch; anything else yields the empty list. -/
def _normalize_slots (data : JVal) : List SlotRec :=
  match data with
  | .arr xs =>
    let s1 := nestedSlots xs
    if !s1.isEmpty then s1 else flatSlots xs
  | .obj fs => dictShapeSlots fs
  | _ => []

/-- Canonical record produced by `_normalize_records`. -/
structure RecordRec where
  recordId : JVal
  doctor : JVal
  startAt : JVal
  endAt : JVal
  status : JVal
  raw : Fields
  deriving Repr

/-- Per-element body of `_normalize_records`. -/
def recordOfItem (fs : Fields) : RecordRec :=
  { recordId := pyOr (dget fs "id") (pyOr (dget fs "recordId") (dget fs "Id")),
    doctor := pyOr (dget fs "doctorName") (pyOr (dget fs "doctor") (dget fs "Doctor")),
    startAt := pyOr (dget fs "startAt") (pyOr (dget fs "date") (dget fs "start")),
    endAt := pyOr (dget fs "endAt") (dget fs "end"),
    status := pyOr (dget fs "status") (pyOr (dget fs "Status") (dget fs "status_pac")),
    raw := fs }

/-- The element loop of `_normalize_records` (non-dicts skipped). -/
def recRows (xs : List JVal) : List RecordRec :=
  xs.foldr
    (fun item acc =>
      match item with
      | .obj fs => recordOfItem fs :: acc
      | _ => acc)
    []

/-- `_normalize_records`: a singleton list wrapping a dict with a
list-valued `records` key is unwrapped; a dict input selects a wrapper
value by Python `or` over `records`/`items`/`data`/`result` and
iterates it (`TypeError`, modelled as `Except.error`, when that value
is truthy and not iterable). -/
def _normalize_records (data : JVal) : Except String (List RecordRec) :=
  match data with
  | .arr xs =>
    match xs with
    | [.obj fs] =>
      match dget fs "records" with
      | .arr rs => .ok (recRows rs)
      | _ => .ok (recRows xs)
    | _ => .ok (recRows xs)
  | .obj fs =>
    let sel := pyOr (dget fs "records") (pyOr (dget fs "items")
                 (pyOr (dget fs "data") (pyOr (dget fs "result") (.arr []))))
    match pyIterate sel with
    | some ys => .ok (recRows ys)
    | none => .error "TypeError: object is not iterable"
  | _ => .ok []

/-! ## Domain operations (`amedis_client.py`) -/

/-- The response shim of the curl transport layer: an HTTP status, the
body text, and the result of `json.loads` on that text (`none` when the
body is not valid JSON, in which case `resp.json()` raises). -/
structure Response where
  status_code : Nat
  text : String
  jsonOf : Option JVal

/-- `_safe_json`: the parsed body, or `{"raw": text}` when parsing
fails. -/
def _safe_json (r : Response) : JVal :=
  match r.jsonOf with
  | some j => j
  | none => .obj [("raw", .s r.text)]

/-- The ordered candidate endpoint paths
`ENDPOINTS["directions_candidates"]`. -/
def directions_candidates : List String :=
  ["/directions", "/direction", "/directions/all", "/direction/all",
   "/getDirections", "/records/directions"]

/-- The failure hint returned when no directions endpoint succeeds. -/
def directionsFailMsg : String :=
  "Не атрымалася аўтаматычна атрымаць спіс напрамкаў. " ++
  "Увядзіце ID напрамку ўручную."

/-- The network as seen by `discover_directions`: each endpoint path
yields a response or (`Except.error`) a transport-layer exception. -/
abbrev Net := String → Except Unit Response

/-- The probing loop of `discover_directions` over a list of candidate
endpoints: an exception, a non-200 status, or an empty normalized list
all continue with the next candidate. -/
def tryEndpoints (net : Net) : List String → String × List Direction × String
  | [] => ("", [], directionsFailMsg)
  | ep :: rest =>
    match net ep with
    | .error _ => tryEndpoints net rest
    | .ok r =>
      if r.status_code = 200 then
        let rows := _normalize_directions (_safe_json r)
        if !rows.isEmpty then (ep, rows, "OK via " ++ ep)
        else tryEndpoints net rest
      else tryEndpoints net rest

/-- `discover_directions` (the `base_url`/`token` arguments are folded
into `net`, which models `_api_get` for the fixed query parameters). -/
def discover_directions (net : Net) : String × List Direction × String :=
  tryEndpoints net directions_candidates

/-- Whether one candidate endpoint succeeds: the request does not
raise, returns status 200, and normalizes to a non-empty list. -/
def epSucceeds (net : Net) (ep : String) : Bool :=
  match net ep with
  | .error _ => false
  | .ok r => r.status_code == 200 && !(_normalize_directions (_safe_json r)).isEmpty

/-- The normalized rows an endpoint would produce (empty on transport
failure). -/
def epRows (net : Net) (ep : String) : List Direction :=
  match net ep with
  | .ok r => _normalize_directions (_safe_json r)
  | .error _ => []

/-- Arguments of `create_record` (all already strings at the call
boundary; `end_at` is optional and `extra` carries arbitrary extra form
fields). -/
structure CreateArgs where
  token : String
  doctor_id : String
  patient_id : String
  start_at : String
  end_at : Option String
  description : String
  insurer : String
  extra : Fields

/-- The form payload built by `create_record`: the seven fixed fields,
then each extra field whose value `is not None and != ""` assigned in
order. -/
def recordFormData (a : CreateArgs) : Fields :=
  let base : Fields :=
    [("token", .s a.token), ("doctor", .s a.doctor_id), ("patient", .s a.patient_id),
     ("startAt", .s a.start_at), ("endAt", .s (a.end_at.getD "")),
     ("description", .s a.description), ("Ins_name", .s a.insurer)]
  a.extra.foldl
    (fun acc p =>
      match p.2 with
      | .null => acc
      | .s "" => acc
      | v => dinsert acc p.1 v)
    base

/-- Result of `create_record`: Python returns a dict keyed either
`status_code`/`error`/`sent` or `status_code`/`data`/`sent`. -/
inductive RecordResult where
  | failure (status_code : Nat) (error : JVal) (sent : Fields)
  | success (status_code : Nat) (data : JVal) (sent : Fields)
  deriving Repr

/-- `create_record`, given the upstream response to the form POST it
issues: non-200 yields the structured failure object carrying the
parsed JSON body (or the body text truncated to 800 characters when
parsing fails) and the payload that was sent. -/
def create_record (resp : Response) (a : CreateArgs) : RecordResult :=
  let data := recordFormData a
  if resp.status_code ≠ 200 then
    let payload :=
      match resp.jsonOf with
      | some j => j
      | none => .s (String.mk (resp.text.data.take 800))
    .failure resp.status_code payload data
  else .success resp.status_code (_safe_json resp) data

/-! ## Duration coercion (`tools.py`, `_to_int_minutes`) -/

/-- Python `round` to the nearest integer of the fraction `m / d`
(`d > 0`), ties to even (banker's rounding). -/
def roundHalfEvenDiv (m d : Int) : Int :=
  let f := Int.fdiv m d
  let r := m - f * d
  if 2 * r < d then f
  else if d < 2 * r then f + 1
  else if f % 2 = 0 then f else f + 1

/-- Python `int(round(q))` for an exact rational `q`. -/
def pyRound (q : ℚ) : Int := roundHalfEvenDiv q.num q.den

/-- A parsed decimal literal: the value is `mantissa * 10 ^ exp10`. -/
structure DecParsed where
  mantissa : Int
  exp10 : Int
  deriving Repr

/-- Optional sign of a numeric literal. -/
def parseSign : List Char → Int × List Char
  | '+' :: cs => (1, cs)
  | '-' :: cs => (-1, cs)
  | cs => (1, cs)

/-- Python `float(text)` on a stripped string, as an exact decimal:
optional sign, digits with an optional fractional part, optional
exponent.  Digit-group underscores and the `inf`/`nan` forms are
elided: for the latter the original `int(round(float(text)))` raises
`OverflowError`/`ValueError`, which the surrounding `except` converts
to `None`, the same outcome as a parse failure. -/
def parseFloatChars (cs : List Char) : Option DecParsed :=
  let (sgn, cs1) := parseSign cs
  let ip := cs1.takeWhile Char.isDigit
  let cs2 := cs1.dropWhile Char.isDigit
  let fp :=
    match cs2 with
    | '.' :: rest => rest.takeWhile Char.isDigit
    | _ => []
  let cs3 :=
    match cs2 with
    | '.' :: rest => rest.dropWhile Char.isDigit
    | _ => cs2
  if ip.isEmpty && fp.isEmpty then none
  else
    let mant : Int := sgn * (natOfDigits (ip ++ fp) : Int)
    match cs3 with
    | [] => some ⟨mant, -(fp.length : Int)⟩
    | e :: rest =>
      if e = 'e' ∨ e = 'E' then
        let (esgn, r1) := parseSign rest
        let ed := r1.takeWhile Char.isDigit
        let r2 := r1.dropWhile Char.isDigit
        if ed.isEmpty ∨ !r2.isEmpty then none
        else some ⟨mant, esgn * (natOfDigits ed : Int) - (fp.length : Int)⟩
      else none

/-- `int(round(mantissa * 10 ^ exp10))` without leaving the integers. -/
def roundDec (p : DecParsed) : Int :=
  if 0 ≤ p.exp10 then p.mantissa * 10 ^ p.exp10.toNat
  else roundHalfEvenDiv p.mantissa (10 ^ (-p.exp10).toNat)

/-- The inputs the duration coercion helper receives from the service
normalizer: `None`, an `int`, a `float` (modelled as the exact rational
it denotes), or a string. -/
inductive DurVal where
  | none
  | int (k : Int)
  | float (q : ℚ)
  | str (s : String)

/-- `_to_int_minutes`: `None` passes through as `None`, integers are
returned unchanged, floats are rounded, and strings are stripped, have
`","` replaced by `"."` (single-character replace, mapped per
character) and are parsed as floats, any failure yielding `None`. -/
def _to_int_minutes : DurVal → Option Int
  | .none => Option.none
  | .int k => some k
  | .float q => some (pyRound q)
  | .str s =>
    let text := (pyStrip s).data.map (fun c => if c = ',' then '.' else c)
    if text.isEmpty then Option.none
    else
      match parseFloatChars text with
      | some p => some (roundDec p)
      | Option.none => Option.none

/-! ## Dialogue flow controller (`agent.py`) -/

/-- The agent's `SlotSelection` dataclass. -/
structure SlotSel where
  startAt : JVal
  endAt : JVal
  raw : JVal
  deriving Repr

/-- Build a `SlotSelection` from a stored slot dict
(`raw.get("raw", {})` defaults to the empty dict). -/
def selOfSlot (fs : Fields) : SlotSel :=
  ⟨dget fs "startAt", dget fs "endAt", dgetD fs "raw" (.obj [])⟩

/-- `AmedisOnlineAgent._match_slot_from_message`: a 1-based index taken
from the first `\b(\d+)\b` match selects by position when in range;
otherwise the first slot whose lowercased start string is non-empty and
occurs in the lowercased message is selected. -/
def _match_slot_from_message (last_slots : List Fields) (message : String) :
    Option SlotSel :=
  if last_slots.isEmpty then none
  else
    let byNum : Option SlotSel :=
      match findNumberToken message with
      | some k =>
        if h : 1 ≤ k ∧ k - 1 < last_slots.length then
          some (selOfSlot (last_slots.get ⟨k - 1, h.2⟩))
        else none
      | none => none
    match byNum with
    | some sel => some sel
    | none =>
      last_slots.findSome?
        (fun fs =>
          let start := pyLower (pyStr (pyOr (dget fs "startAt") (.s "")))
          if start.data ≠ [] ∧ strIn start (pyLower message) then some (selOfSlot fs)
          else none)

/-- Case-insensitive prefix test against a lowercase pattern. -/
def ciLeads (pat : String) (cs : List Char) : Bool :=
  leadsChars pat.data (cs.map lowerChar)

/-- The character class `[а-яё]` of the insurer regex under
`re.IGNORECASE`. -/
def inClassAYo (c : Char) : Bool :=
  let l := (lowerChar c).toNat
  (0x430 ≤ l ∧ l ≤ 0x44F) ∨ l = 0x451

/-- The common tail `\s*[=:]\s*(.+)` of the insurer and description
regexes, with the final `.strip()` applied to the captured group.  An
all-whitespace remainder makes the group strip to the empty string,
which every caller treats as no match; that case is folded into
`none`. -/
def tailCapture (cs : List Char) : Option String :=
  let cs1 := cs.dropWhile isPySpace
  match cs1 with
  | c :: rest =>
    if c = '=' ∨ c = ':' then
      let cs2 := rest.dropWhile isPySpace
      let grp := cs2.takeWhile (fun d => d ≠ '\n')
      let g := pyStrip (String.mk grp)
      if g.data.isEmpty then none else some g
    else none
  | [] => none

/-- One attempt of the insurer regex
`(?:ins_name|insurer|страх[а-яё]+)\s*[=:]\s*(.+)` at a fixed start
position (the three alternatives cannot match the same prefix, and
backtracking inside `[а-яё]+` can never rescue the tail, so the
greedy run is final). -/
def insurerAt (cs : List Char) : Option String :=
  if ciLeads "ins_name" cs then tailCapture (cs.drop 8)
  else if ciLeads "insurer" cs then tailCapture (cs.drop 7)
  else if ciLeads "страх" cs then
    let rest := cs.drop 5
    let run := rest.takeWhile inClassAYo
    if run.isEmpty then none else tailCapture (rest.dropWhile inClassAYo)
  else none

/-- `re.search`: try a position matcher at every start position, left
to right. -/
def scanPositions (f : List Char → Option String) : List Char → Option String
  | [] => f []
  | c :: cs =>
    match f (c :: cs) with
    | some r => some r
    | none => scanPositions f cs

/-- `AmedisOnlineAgent._extract_insurer`. -/
def _extract_insurer (message : String) : Option String :=
  scanPositions insurerAt message.data

/-- One attempt of the description regex
`(?:каментар|comment)\s*[:=]\s*(.+)` at a fixed start position. -/
def descriptionAt (cs : List Char) : Option String :=
  if ciLeads "каментар" cs then tailCapture (cs.drop 8)
  else if ciLeads "comment" cs then tailCapture (cs.drop 7)
  else none

/-- `AmedisOnlineAgent._extract_description`. -/
def _extract_description (message : String) : Option String :=
  scanPositions descriptionAt message.data

/-- `AmedisOnlineAgent._is_confirmation`: substring test for a fixed
set of affirmative words against the lowercased message. -/
def _is_confirmation (lower : String) : Bool :=
  strIn "так" lower || strIn "пацвярджаю" lower || strIn "ок" lower ||
  strIn "добра" lower

/-- The conversation state `AgentState` of `agent.py`. -/
structure AgentState where
  token : Option String
  patient_id : Option String
  insurer : Option String
  direction_id : Option String
  doctor_id : Option String
  service_id : Option String
  description : Option String
  slot : Option SlotSel
  goal : Option String
  stage : Option String
  last_directions : List Fields
  last_doctors : List Fields
  last_services : List Fields
  last_slots : List Fields
  last_records : List Fields

/-- `AgentState.reset_flow`: clear the booking-in-progress fields and
the four candidate caches; `token`, `patient_id`, `insurer` and
`last_records` are untouched. -/
def reset_flow (st : AgentState) : AgentState :=
  { st with direction_id := none, doctor_id := none, service_id := none,
            description := none, slot := none, goal := none, stage := none,
            last_directions := [], last_doctors := [], last_services := [],
            last_slots := [] }

/-- What the `confirm` branch does next: call `_finalize_record`,
abort, or re-prompt. -/
inductive ConfirmOutcome where
  | finalize
  | aborted
  | reprompt
  deriving Repr, DecidableEq

/-- The `stage == "confirm"` branch of
`AmedisOnlineAgent._handle_create_flow`: extract an insurer and a
description from the message into the state, then check affirmative
words first and the cancel words `"адмена"`/`"не"` second. -/
def confirmStage (st : AgentState) (message : String) :
    AgentState × ConfirmOutcome :=
  let lower := pyLower message
  let st1 :=
    match _extract_insurer message with
    | some x => { st with insurer := some x }
    | none => st
  let st2 :=
    match _extract_description message with
    | some x => { st1 with description := some x }
    | none => st1
  if _is_confirmation lower then (st2, .finalize)
  else if strIn "адмена" lower || strIn "не" lower then (reset_flow st2, .aborted)
  else (st2, .reprompt)

/-! ## HAR parsing (`amedis_client.py`, `parse_har_for_patient`) -/

/-- The file as `parse_har_for_patient` sees it: absent, present but
not valid JSON (`json.loads` raises), or parsed JSON. -/
inductive HarInput where
  | missing
  | unparseable
  | parsed (j : JVal)

/-- The result dict of `parse_har_for_patient`. -/
structure HarResult where
  patient_ids : List String
  ins_name : Option String
  record_fields : List String
  deriving Repr, DecidableEq

/-- Lexicographic order on code points: Python `<=` on strings. -/
def charsLe : List Char → List Char → Bool
  | [], _ => true
  | _ :: _, [] => false
  | a :: as, b :: bs => if a = b then charsLe as bs else decide (a < b)

/-- Python `a <= b` on strings. -/
def strLe (a b : String) : Bool := charsLe a.data b.data

/-- The order relation used to model Python `sorted`. -/
abbrev StrLeRel : String → String → Prop := fun a b => strLe a b = true

instance : DecidableRel StrLeRel := fun a b =>
  inferInstanceAs (Decidable (strLe a b = true))

/-- Python `sorted` on a list of strings. -/
def sortedStrings (l : List String) : List String :=
  List.insertionSort StrLeRel l

/-- Set insertion (`set.add`) modelled on a duplicate-free list. -/
def addIfNew (l : List String) (x : String) : List String :=
  if l.any (fun y => y == x) then l else l ++ [x]

/-- Split a character list at every occurrence of `sep`
(`str.split(sep)`). -/
def splitOnChar (sep : Char) : List Char → List (List Char)
  | [] => [[]]
  | c :: cs =>
    if c = sep then [] :: splitOnChar sep cs
    else
      match splitOnChar sep cs with
      | g :: gs => (c :: g) :: gs
      | [] => [[c]]

/-- Everything after the first occurrence of `c`, if any. -/
def charsAfterFirst (c : Char) (cs : List Char) : Option (List Char) :=
  match cs.dropWhile (fun d => d ≠ c) with
  | [] => none
  | _ :: rest => some rest

/-- `urlparse(url).query`: the part between the first `?` (after
cutting at the first `#`) and the end. -/
def urlQuery (url : String) : String :=
  let noFrag := url.data.takeWhile (fun c => c ≠ '#')
  match charsAfterFirst '?' noFrag with
  | some q => String.mk q
  | none => ""

/-- `+`-to-space decoding of `unquote_plus` (percent-decoding elided:
the extracted values are digits and identifiers). -/
def plusToSpace (c : Char) : Char := if c = '+' then ' ' else c

/-- The `name=value` pairs of `parse_qs` with default options: empty
chunks, chunks without `=` and blank values are dropped; `value` is
everything after the first `=`. -/
def qsPairs (qs : List Char) : List (String × String) :=
  (splitOnChar '&' qs).filterMap
    (fun part =>
      if part.isEmpty then none
      else
        match charsAfterFirst '=' part with
        | none => none
        | some v =>
          if v.isEmpty then none
          else some (String.mk ((part.takeWhile (fun d => d ≠ '=')).map plusToSpace),
                     String.mk (v.map plusToSpace)))

/-- Append one pair to a `parse_qs` multidict, preserving
first-occurrence key order. -/
def addQsPair (acc : List (String × List String)) (k v : String) :
    List (String × List String) :=
  if acc.any (fun p => p.1 == k) then
    acc.map (fun p => if p.1 == k then (p.1, p.2 ++ [v]) else p)
  else acc ++ [(k, [v])]

/-- `urllib.parse.parse_qs` with default options. -/
def parse_qs (qs : String) : List (String × List String) :=
  (qsPairs qs.data).foldl (fun acc p => addQsPair acc p.1 p.2) []

/-- Values of one key in a `parse_qs` result (empty when absent). -/
def qsGet (m : List (String × List String)) (k : String) : List String :=
  match m.find? (fun p => p.1 == k) with
  | some p => p.2
  | none => []

/-- `re.search(r"patientAPIId=([0-9]+)", body)`: the digits after the
first occurrence of the literal that is followed by at least one
digit. -/
def patIdScan : List Char → Option String
  | [] => none
  | c :: cs =>
    if leadsChars "patientAPIId=".data (c :: cs) then
      let rest := (c :: cs).drop 13
      let run := rest.takeWhile Char.isDigit
      if run.isEmpty then patIdScan cs else some (String.mk run)
    else patIdScan cs

/-- Mutable loop state of `parse_har_for_patient`. -/
structure HarAcc where
  patient_ids : List String
  ins_name : Option String
  fields_seen : Option (List String)

/-- One iteration of the entry loop.  Unguarded attribute accesses and
the `re.search` on a non-string body raise in Python; those paths are
`Except.error`. -/
def processEntry (acc : HarAcc) (entry : JVal) : Except String HarAcc :=
  match entry with
  | .obj efs =>
    match pyOr (dgetD efs "request" (.obj [])) (.obj []) with
    | .obj rfs =>
      match pyOr (dgetD rfs "url" (.s "")) (.s "") with
      | .s url =>
        let params := parse_qs (urlQuery url)
        let ids1 := (qsGet params "patientAPIId").filter (fun v => v.data ≠ [])
        let acc1 := { acc with patient_ids := ids1.foldl addIfNew acc.patient_ids }
        match pyOr (dgetD rfs "postData" (.obj [])) (.obj []) with
        | .obj pfs =>
          match pyOr (dgetD pfs "text" (.s "")) (.s "") with
          | .s body =>
            let acc2 :=
              match patIdScan body.data with
              | some v => { acc1 with patient_ids := addIfNew acc1.patient_ids v }
              | none => acc1
            let methodv := dgetD rfs "method" (.s "")
            if strEndsWithFn url "/record/create" && pyEq methodv (.s "POST") then
              let flattened := (parse_qs body).map (fun p => (p.1, p.2.headD ""))
              let acc3 := { acc2 with fields_seen := some (flattened.map (fun p => p.1)) }
              match flattened.find? (fun p => p.1 == "Ins_name") with
              | some p =>
                if p.2.data ≠ [] then .ok { acc3 with ins_name := some p.2 }
                else .ok acc3
              | none => .ok acc3
            else .ok acc2
          | _ => .error "TypeError: expected string or bytes-like object"
        | _ => .error "AttributeError: no attribute get"
      | _ => .error "TypeError: urlparse expects a string"
    | _ => .error "AttributeError: no attribute get"
  | _ => .error "AttributeError: no attribute get"

/-- The entry loop of `parse_har_for_patient`. -/
def processEntries (acc : HarAcc) : List JVal → Except String HarAcc
  | [] => .ok acc
  | e :: es =>
    match processEntry acc e with
    | .error m => .error m
    | .ok acc2 => processEntries acc2 es

/-- `parse_har_for_patient`.  A missing or JSON-unparseable file yields
the all-empty result (only `json.loads` is inside the `try`); parsed
JSON is walked with unguarded attribute accesses, so content that is
not shaped like a HAR object raises (`Except.error`).  The collected
patient ids are returned deduplicated and sorted; `record_fields` is
the key list of the last `/record/create` POST seen. -/
def parse_har_for_patient (input : HarInput) : Except String HarResult :=
  match input with
  | .missing => .ok ⟨[], none, []⟩
  | .unparseable => .ok ⟨[], none, []⟩
  | .parsed j =>
    match j with
    | .obj fs =>
      match dgetD fs "log" (.obj []) with
      | .obj lfs =>
        match pyIterate (dgetD lfs "entries" (.arr [])) with
        | some entries =>
          match processEntries ⟨[], none, none⟩ entries with
          | .ok acc =>
            .ok ⟨sortedStrings acc.patient_ids, acc.ins_name, acc.fields_seen.getD []⟩
          | .error m => .error m
        | none => .error "TypeError: object is not iterable"
      | _ => .error "AttributeError: no attribute get"
    | _ => .error "AttributeError: no attribute get"

/-! ## Theorems -/

/-- Unfolding equation for `roundHalfEvenDiv`. -/
theorem roundHalfEvenDiv_eq (m d : Int) :
    roundHalfEvenDiv m d =
      if 2 * (m - Int.fdiv m d * d) < d then Int.fdiv m d
      else if d < 2 * (m - Int.fdiv m d * d) then Int.fdiv m d + 1
      else if Int.fdiv m d % 2 = 0 then Int.fdiv m d
      else Int.fdiv m d + 1 := rfl

/-- `roundHalfEvenDiv` returns an integer within one half of the exact
fraction. -/
theorem roundHalfEvenDiv_nearest (m d : ℤ) (hd : 0 < d) :
    |(m : ℚ) / (d : ℚ) - (roundHalfEvenDiv m d : ℚ)| ≤ 1 / 2 := by
  have hfd : Int.fdiv m d = m / d := Int.fdiv_eq_ediv m hd.le
  have hdQ : (0 : ℚ) < (d : ℚ) := by exact_mod_cast hd
  have hr0 : 0 ≤ m - Int.fdiv m d * d := by
    rw [hfd]
    have := Int.emod_nonneg m (ne_of_gt hd)
    rw [Int.emod_def] at this
    linarith [this, Int.mul_comm d (m / d)]
  have hrd : m - Int.fdiv m d * d < d := by
    rw [hfd]
    have := Int.emod_lt_of_pos m hd
    rw [Int.emod_def] at this
    linarith [this, Int.mul_comm d (m / d)]
  have key : ∀ k : ℤ, 2 * |m - k * d| ≤ d → |(m : ℚ) / d - (k : ℚ)| ≤ 1 / 2 := by
    intro k hk
    have h1 : (m : ℚ) / d - k = ((m - k * d : ℤ) : ℚ) / (d : ℚ) := by
      push_cast
      field_simp
      ring
    rw [h1, abs_div, abs_of_pos hdQ, div_le_iff₀ hdQ, ← Int.cast_abs]
    have hkQ : 2 * ((|m - k * d| : ℤ) : ℚ) ≤ (d : ℚ) := by exact_mod_cast hk
    linarith
  rw [roundHalfEvenDiv_eq]
  set f := Int.fdiv m d with hf
  set r := m - f * d with hrdef
  split_ifs with h1 h2 h3
  · refine key f ?_
    rw [← hrdef, abs_of_nonneg hr0]
    omega
  · refine key (f + 1) ?_
    have e : m - (f + 1) * d = r - d := by rw [hrdef]; ring
    rw [e, abs_of_nonpos (by omega)]
    omega
  · refine key f ?_
    rw [← hrdef, abs_of_nonneg hr0]
    omega
  · refine key (f + 1) ?_
    have e : m - (f + 1) * d = r - d := by rw [hrdef]; ring
    rw [e, abs_of_nonpos (by omega)]
    omega

/-- `pyRound` is within one half of its argument. -/
theorem pyRound_nearest (q : ℚ) : |q - (pyRound q : ℚ)| ≤ 1 / 2 := by
  have h := roundHalfEvenDiv_nearest q.num (q.den : ℤ) (by exact_mod_cast q.pos)
  unfold pyRound
  push_cast at h
  rwa [Rat.num_div_den] at h

/-- C3: the duration coercion helper returns integers unchanged,
rounds floats to the nearest integer (45.6 gives 46), parses numeric
strings including a comma decimal separator, and yields `None` on
`None` or unparseable input — it is a total function (the Python
original never raises). -/
theorem c3_duration_coercion :
    (∀ k : Int, _to_int_minutes (.int k) = some k)
    ∧ (∀ q : ℚ, ∃ k : Int,
        _to_int_minutes (.float q) = some k ∧ |q - (k : ℚ)| ≤ 1 / 2)
    ∧ _to_int_minutes (.float ⟨228, 5, by decide, by decide⟩) = some 46
    ∧ _to_int_minutes (.str "30") = some 30
    ∧ _to_int_minutes (.str "45,6") = some 46
    ∧ _to_int_minutes DurVal.none = Option.none
    ∧ _to_int_minutes (.str "abc") = Option.none
    ∧ _to_int_minutes (.str " ") = Option.none := by
  refine ⟨fun k => rfl, fun q => ⟨pyRound q, rfl, pyRound_nearest q⟩,
    by decide, by decide, by decide, rfl, by decide, by decide⟩

/-- C4: whenever the upstream response to the booking POST has a
non-success status, `create_record` returns (rather than raising) the
structured failure object carrying the status code, the parsed JSON
error body (or the raw body text, truncated to 800 characters, when it
does not parse) and the exact form payload that was sent; in
particular a 400 response with body `{"reason":"slot_taken"}` yields
exactly that failure object. -/
theorem c4_create_record_failure :
    (∀ (resp : Response) (a : CreateArgs), resp.status_code ≠ 200 →
      create_record resp a =
        .failure resp.status_code
          (match resp.jsonOf with
           | some j => j
           | Option.none => .s (String.mk (resp.text.data.take 800)))
          (recordFormData a))
    ∧ create_record ⟨400, "", some (.obj [("reason", .s "slot_taken")])⟩
        ⟨"tok", "42", "77", "2024-06-01 09:00", some "2024-06-01 09:30",
         "паўторны прыём", "ACME", [("officeId", .s "11"), ("cabinetId", .null)]⟩
      = .failure 400 (.obj [("reason", .s "slot_taken")])
          [("token", .s "tok"), ("doctor", .s "42"), ("patient", .s "77"),
           ("startAt", .s "2024-06-01 09:00"), ("endAt", .s "2024-06-01 09:30"),
           ("description", .s "паўторны прыём"), ("Ins_name", .s "ACME"),
           ("officeId", .s "11")] := by
  constructor
  · intro resp a h
    unfold create_record
    rw [if_pos h]
  · rfl

/-- Witness for C4 at a response whose body does not parse as JSON. -/
theorem c4_create_record_failure_witness :
    create_record ⟨502, "Bad Gateway", Option.none⟩
        ⟨"t", "1", "2", "s", Option.none, "", "I", []⟩
      = .failure 502 (.s "Bad Gateway")
          (recordFormData ⟨"t", "1", "2", "s", Option.none, "", "I", []⟩) :=
  c4_create_record_failure.1 ⟨502, "Bad Gateway", Option.none⟩
    ⟨"t", "1", "2", "s", Option.none, "", "I", []⟩ (by decide)

/-- The probing loop returns the first succeeding candidate. -/
theorem tryEndpoints_eq_find (net : Net) (eps : List String) :
    tryEndpoints net eps =
      match eps.find? (epSucceeds net) with
      | some ep => (ep, epRows net ep, "OK via " ++ ep)
      | none => ("", [], directionsFailMsg) := by
  induction eps with
  | nil => rfl
  | cons ep rest ih =>
    by_cases hs : epSucceeds net ep = true
    · rw [List.find?_cons_of_pos _ hs]
      unfold epSucceeds at hs
      unfold tryEndpoints
      cases hnet : net ep with
      | error e => rw [hnet] at hs; simp at hs
      | ok r =>
        rw [hnet] at hs
        simp only [Bool.and_eq_true, beq_iff_eq, Bool.not_eq_true'] at hs
        obtain ⟨h200, hne⟩ := hs
        dsimp only
        rw [if_pos h200]
        simp only [epRows, hnet]
        simp [hne]
    · rw [List.find?_cons_of_neg _ hs]
      unfold epSucceeds at hs
      unfold tryEndpoints
      cases hnet : net ep with
      | error e => exact ih
      | ok r =>
        rw [hnet] at hs
        simp only [Bool.and_eq_true, beq_iff_eq, Bool.not_eq_true', not_and_or] at hs
        dsimp only
        rcases hs with h200 | hne
        · rw [if_neg (by simpa using h200)]
          exact ih
        · by_cases h200 : r.status_code = 200
          · rw [if_pos h200]
            have hemp : (_normalize_directions (_safe_json r)).isEmpty = true := by
              simpa using hne
            simp only [hemp]
            simpa using ih
          · rw [if_neg h200]
            exact ih

/-- C2: directions discovery probes the fixed candidate endpoints in
declared order and returns at the first one whose request does not
raise, has HTTP status 200 and normalizes to a non-empty list,
reporting that endpoint as the source; when no candidate succeeds it
returns the empty endpoint, the empty list and the fixed human-readable
failure hint — the function is total, so it never raises.  The second
conjunct runs the 500-then-valid scenario: the first candidate answers
500, the second answers a valid two-element list and is reported. -/
theorem c2_discover_directions :
    (∀ net : Net,
      discover_directions net =
        match directions_candidates.find? (epSucceeds net) with
        | some ep => (ep, epRows net ep, "OK via " ++ ep)
        | none => ("", [], directionsFailMsg))
    ∧ discover_directions
        (fun ep =>
          if ep == "/directions" then
            .ok ⟨500, "err", some (.obj [("error", .s "fail")])⟩
          else if ep == "/direction" then
            .ok ⟨200, "",
              some (.arr [.obj [("id", .s "1"), ("name", .s "Тэрапія")],
                          .obj [("Id", .s "2"), ("Title", .s "Хірургія")]])⟩
          else .error ())
      = ("/direction",
         [⟨.s "1", .s "Тэрапія"⟩, ⟨.s "2", .s "Хірургія"⟩],
         "OK via /direction") := by
  constructor
  · intro net
    exact tryEndpoints_eq_find net directions_candidates
  · rfl

/-- A fold over entries that are all skipped leaves the
accumulator unchanged. -/
theorem foldr_skip_nonarr {α : Type} (f : String × JVal → α → α)
    (hskip : ∀ p acc, p.2.isArr = false → f p acc = acc) :
    ∀ (meta : Fields) (init : α), (∀ p ∈ meta, p.2.isArr = false) →
      meta.foldr f init = init := by
  intro meta
  induction meta with
  | nil => intro init _; rfl
  | cons p rest ih =>
    intro init h
    have hp : p.2.isArr = false := h p (List.mem_cons_self p rest)
    have hrest : ∀ q ∈ rest, q.2.isArr = false := fun q hq =>
      h q (List.mem_cons_of_mem p hq)
    simp only [List.foldr_cons, ih init hrest, hskip p init hp]

/-- A day block consisting of non-list metadata plus one date entry
contributes exactly the slots of that date, with the metadata as the
block-level metadata. -/
theorem blockSlots_single (date : String) (meta : Fields) (ds : List JVal)
    (hmeta : ∀ p ∈ meta, p.2.isArr = false) :
    blockSlots (meta ++ [(date, .arr ds)]) =
      ds.filterMap
        (fun sv =>
          match sv with
          | .obj sfs => slotOfDay date meta sfs
          | _ => none) := by
  have hmetaOf : metaOf (meta ++ [(date, .arr ds)]) = meta := by
    unfold metaOf
    rw [List.filter_append]
    have h1 : meta.filter (fun p => !p.2.isArr) = meta :=
      List.filter_eq_self.mpr (by
        intro p hp
        simp [hmeta p hp])
    have h2 : ([(date, JVal.arr ds)] : Fields).filter (fun p => !p.2.isArr) = [] := by
      simp [JVal.isArr]
    rw [h1, h2, List.append_nil]
  unfold blockSlots
  simp only [hmetaOf]
  rw [List.foldr_append]
  refine Eq.trans
    (foldr_skip_nonarr _ ?_ meta _ hmeta) ?_
  · intro p acc hp
    cases hv : p.2 <;> simp_all [JVal.isArr]
  · simp

/-- C1: on a nested-block schedule payload — a list of dicts whose
list-valued entries hold day blocks made of non-list metadata plus a
`date -> [slot, ...]` entry — the slot normalizer resolves the slot's
start (aliases `startAt`/`start`/`time`) and end (`endAt`/`end`),
combines each with the owning date exactly when the value is a string
of at most 5 characters containing a colon (using it verbatim
otherwise), and sets `raw` to the Python merge of `{date: ...}`, the
block metadata and the slot's own fields, slot fields taking
precedence.  The second conjunct evaluates the specific
`2023-10-01` / `{startAt:"09:00", endAt:"09:30"}` payload. -/
theorem c1_normalize_slots_nested :
    (∀ (key date : String) (meta slotFs : Fields),
      (∀ p ∈ meta, p.2.isArr = false) →
      (pyOr (dget slotFs "startAt")
        (pyOr (dget slotFs "start") (dget slotFs "time"))).truthy = true →
      _normalize_slots
          (.arr [.obj [(key, .arr [.obj (meta ++ [(date, .arr [.obj slotFs])])])]])
        = [{ startAt :=
               match pyOr (dget slotFs "startAt")
                   (pyOr (dget slotFs "start") (dget slotFs "time")) with
               | .s t =>
                 if t.data.length ≤ 5 && t.data.contains ':' then .s (date ++ " " ++ t)
                 else .s t
               | v => v,
             endAt :=
               match pyOr (dget slotFs "endAt") (dget slotFs "end") with
               | .s t =>
                 if t.data.length ≤ 5 && t.data.contains ':' then .s (date ++ " " ++ t)
                 else .s t
               | v => v,
             raw := .obj (dmerge (dmerge [("date", .s date)] meta) slotFs) }])
    ∧ _normalize_slots
        (.arr [.obj [("someKey", .arr [.obj
          [("2023-10-01", .arr [.obj [("startAt", .s "09:00"), ("endAt", .s "09:30")]]),
           ("officeId", .s "11")]])]])
      = [{ startAt := .s "2023-10-01 09:00",
           endAt := .s "2023-10-01 09:30",
           raw := .obj [("date", .s "2023-10-01"), ("officeId", .s "11"),
                        ("startAt", .s "09:00"), ("endAt", .s "09:30")] }] := by
  constructor
  · intro key date meta slotFs hmeta hstart
    have hnest : nestedSlots
        [.obj [(key, .arr [.obj (meta ++ [(date, .arr [.obj slotFs])])])]]
        = blockSlots (meta ++ [(date, .arr [.obj slotFs])]) := by
      simp [nestedSlots]
    have hblock := blockSlots_single date meta [.obj slotFs] hmeta
    have hslot : slotOfDay date meta slotFs =
        some { startAt :=
                 combineTime date (pyOr (dget slotFs "startAt")
                   (pyOr (dget slotFs "start") (dget slotFs "time"))),
               endAt :=
                 combineTime date (pyOr (dget slotFs "endAt") (dget slotFs "end")),
               raw := .obj (dmerge (dmerge [("date", .s date)] meta) slotFs) } := by
      simp only [slotOfDay, hstart]
      rfl
    have hct : ∀ (d : String) (v : JVal),
        combineTime d v =
          match v with
          | .s t =>
            if t.data.length ≤ 5 && t.data.contains ':' then .s (d ++ " " ++ t)
            else .s t
          | v => v := by
      intro d v
      cases v <;> rfl
    unfold _normalize_slots
    dsimp only
    rw [hnest, hblock]
    simp only [List.filterMap_cons, List.filterMap_nil, hslot]
    simp only [List.isEmpty_cons, Bool.not_false, if_true, hct]
  · rfl

/-- Witness for C1 with block metadata `officeId` and a slot carrying a
`note` field that overrides the block-level one in the merged raw
dict. -/
theorem c1_normalize_slots_nested_witness :
    _normalize_slots
        (.arr [.obj [("k", .arr [.obj
          ([("officeId", .s "11"), ("note", .s "block")] ++
           [("2023-10-01", .arr [.obj
             [("startAt", .s "09:00"), ("endAt", .s "09:30"),
              ("note", .s "slot")]])])])]])
      = [{ startAt := .s "2023-10-01 09:00",
           endAt := .s "2023-10-01 09:30",
           raw := .obj [("date", .s "2023-10-01"), ("officeId", .s "11"),
                        ("note", .s "slot"),
                        ("startAt", .s "09:00"), ("endAt", .s "09:30")] }] :=
  c1_normalize_slots_nested.1 "k" "2023-10-01"
    [("officeId", .s "11"), ("note", .s "block")]
    [("startAt", .s "09:00"), ("endAt", .s "09:30"), ("note", .s "slot")]
    (by decide) (by decide)

/-- `pyEq` holds exactly when both values are hashable scalars with
the same canonical key. -/
theorem pyEq_iff_key : ∀ a b : JVal,
    pyEq a b = true ↔ (pyKey a ≠ Option.none ∧ pyKey a = pyKey b) := by
  intro a b
  cases a with
  | null => cases b <;> simp [pyEq, pyKey]
  | b x =>
    cases b with
    | null => simp [pyEq, pyKey]
    | b y => cases x <;> cases y <;> simp [pyEq, pyKey]
    | n y => cases x <;> simp [pyEq, pyKey, beq_iff_eq]
    | s y => simp [pyEq, pyKey]
    | arr ys => simp [pyEq, pyKey]
    | obj gs => simp [pyEq, pyKey]
  | n x =>
    cases b with
    | null => simp [pyEq, pyKey]
    | b y => cases y <;> simp [pyEq, pyKey, beq_iff_eq]
    | n y => simp [pyEq, pyKey, beq_iff_eq]
    | s y => simp [pyEq, pyKey]
    | arr ys => simp [pyEq, pyKey]
    | obj gs => simp [pyEq, pyKey]
  | s x => cases b <;> simp [pyEq, pyKey, beq_iff_eq]
  | arr xs => cases b <;> simp [pyEq, pyKey]
  | obj fs => cases b <;> simp [pyEq, pyKey]

/-- `pyEq` is symmetric. -/
theorem pyEq_comm (a b : JVal) : pyEq a b = pyEq b a := by
  rcases hab : pyEq a b with _ | _
  · rcases hba : pyEq b a with _ | _
    · rfl
    · obtain ⟨h1, h2⟩ := (pyEq_iff_key b a).mp hba
      have hcontra : pyEq a b = true :=
        (pyEq_iff_key a b).mpr ⟨h2 ▸ h1, h2.symm⟩
      rw [hab] at hcontra
      exact absurd hcontra (by simp)
  · obtain ⟨h1, h2⟩ := (pyEq_iff_key a b).mp hab
    exact ((pyEq_iff_key b a).mpr ⟨h2 ▸ h1, h2.symm⟩).symm

/-- `pyEq` is transitive. -/
theorem pyEq_trans (a b c : JVal) (hab : pyEq a b = true)
    (hbc : pyEq b c = true) : pyEq a c = true := by
  obtain ⟨h1, h2⟩ := (pyEq_iff_key a b).mp hab
  obtain ⟨h3, h4⟩ := (pyEq_iff_key b c).mp hbc
  exact (pyEq_iff_key a c).mpr ⟨h1, h2.trans h4⟩

/-- A value with a canonical key is hashable. -/
theorem hashable_of_key (b : JVal) (h : pyKey b ≠ Option.none) :
    b.hashable = true := by
  cases b <;> simp_all [pyKey, JVal.hashable]

/-- Anything Python-equal to some value is hashable (only scalars
compare equal). -/
theorem pyEq_hashable_right (x y : JVal) (h : pyEq x y = true) :
    y.hashable = true := by
  obtain ⟨h1, h2⟩ := (pyEq_iff_key x y).mp h
  exact hashable_of_key y (by rw [← h2]; exact h1)

/-- Python-equal values have the same truthiness (booleans equal their
integer values, which have the same truthiness). -/
theorem pyEq_truthy (a b : JVal) (h : pyEq a b = true) :
    a.truthy = b.truthy := by
  cases a with
  | null => cases b <;> simp_all [pyEq]
  | b x =>
    cases b with
    | null => simp [pyEq] at h
    | b y => simp only [pyEq, beq_iff_eq] at h; rw [h]
    | n y =>
      simp only [pyEq, beq_iff_eq] at h
      rw [← h]
      cases x <;> simp [JVal.truthy]
    | s y => simp [pyEq] at h
    | arr ys => simp [pyEq] at h
    | obj gs => simp [pyEq] at h
  | n x =>
    cases b with
    | null => simp [pyEq] at h
    | b y =>
      simp only [pyEq, beq_iff_eq] at h
      rw [h]
      cases y <;> simp [JVal.truthy]
    | n y => simp only [pyEq, beq_iff_eq] at h; rw [h]
    | s y => simp [pyEq] at h
    | arr ys => simp [pyEq] at h
    | obj gs => simp [pyEq] at h
  | s x =>
    cases b with
    | s y => simp only [pyEq, beq_iff_eq] at h; rw [h]
    | null => simp [pyEq] at h
    | b y => simp [pyEq] at h
    | n y => simp [pyEq] at h
    | arr ys => simp [pyEq] at h
    | obj gs => simp [pyEq] at h
  | arr xs => cases b <;> simp [pyEq] at h
  | obj fs => cases b <;> simp [pyEq] at h

/-- Mapping over an `Except` preserves success. -/
theorem isOk_map {α β : Type} (f : α → β) (e : Except String α) :
    (e.map f).isOk = e.isOk := by
  cases e <;> rfl

/-- Reference deduplication, written from the spec's words under
Python semantics: keep the first occurrence of every truthy hashable
id, drop later occurrences of a Python-equal id, drop falsy-id records
without touching the seen set, and raise `TypeError` on a truthy
unhashable id. -/
def specDedupDoctors : List Doctor → Except String (List Doctor)
  | [] => .ok []
  | d :: ds =>
    if d.id.truthy then
      if d.id.hashable then
        (specDedupDoctors (ds.filter (fun e => !pyEq e.id d.id))).map
          (fun rest => d :: rest)
      else .error "TypeError: unhashable type"
    else specDedupDoctors ds
termination_by l => l.length
decreasing_by
  · simp only [List.length_cons]
    have := List.length_filter_le (fun e => !pyEq e.id d.id) ds
    omega
  · simp

/-- The seen-set loop of `_normalize_doctors` agrees with the
reference deduplication once already-seen ids are filtered away. -/
theorem dedupDoctors_eq_spec : ∀ (rows : List Doctor) (seen : List JVal),
    dedupDoctors rows seen =
      specDedupDoctors (rows.filter (fun d => !(seen.any (fun x => pyEq x d.id)))) := by
  intro rows
  induction rows with
  | nil => intro seen; simp [dedupDoctors, specDedupDoctors]
  | cons d ds ih =>
    intro seen
    have hunf : dedupDoctors (d :: ds) seen =
        if d.id.truthy = true then
          if d.id.hashable = true then
            if seen.any (fun x => pyEq x d.id) = true then dedupDoctors ds seen
            else (dedupDoctors ds (d.id :: seen)).map (fun rest => d :: rest)
          else .error "TypeError: unhashable type"
        else dedupDoctors ds seen := rfl
    have hspec : ∀ l : List Doctor, specDedupDoctors (d :: l) =
        if d.id.truthy = true then
          if d.id.hashable = true then
            (specDedupDoctors (l.filter (fun e => !pyEq e.id d.id))).map
              (fun rest => d :: rest)
          else .error "TypeError: unhashable type"
        else specDedupDoctors l := by
      intro l
      rw [specDedupDoctors]
    by_cases ht : d.id.truthy = true
    · by_cases hseen : seen.any (fun x => pyEq x d.id) = true
      · have hh : d.id.hashable = true := by
          simp only [List.any_eq_true] at hseen
          obtain ⟨x, _, hx⟩ := hseen
          exact pyEq_hashable_right x d.id hx
        rw [hunf, if_pos ht, if_pos hh, if_pos hseen,
          List.filter_cons, if_neg (by simp [hseen])]
        exact ih seen
      · have hseen' : seen.any (fun x => pyEq x d.id) = false :=
          Bool.not_eq_true _ ▸ hseen
        rw [List.filter_cons, if_pos (by simp [hseen']), hspec]
        by_cases hh : d.id.hashable = true
        · rw [hunf, if_pos ht, if_pos hh, if_neg hseen, if_pos ht, if_pos hh]
          have hfeq :
              (ds.filter (fun e => !(seen.any (fun x => pyEq x e.id)))).filter
                (fun e => !pyEq e.id d.id)
              = ds.filter (fun e => !((d.id :: seen).any (fun x => pyEq x e.id))) := by
            rw [List.filter_filter]
            apply List.filter_congr
            intro e _
            simp only [List.any_cons, Bool.not_or]
            rw [pyEq_comm d.id e.id, Bool.and_comm]
          rw [hfeq, ih (d.id :: seen)]
        · rw [hunf, if_pos ht, if_neg hh, if_pos ht, if_neg hh]
    · rw [hunf, if_neg ht]
      by_cases hseen : seen.any (fun x => pyEq x d.id) = true
      · rw [List.filter_cons, if_neg (by simp [hseen])]
        exact ih seen
      · have hseen' : seen.any (fun x => pyEq x d.id) = false :=
          Bool.not_eq_true _ ▸ hseen
        rw [List.filter_cons, if_pos (by simp [hseen']), hspec, if_neg ht]
        exact ih seen

/-- Whatever list the reference deduplication returns is a sublist of
the input, so relative order is preserved. -/
theorem specDedupDoctors_sublist : ∀ (rows l : List Doctor),
    specDedupDoctors rows = .ok l → l.Sublist rows := by
  intro rows
  induction rows using specDedupDoctors.induct with
  | case1 =>
    intro l h
    simp only [specDedupDoctors, Except.ok.injEq] at h
    rw [← h]
  | case2 d ds ht hh ih =>
    intro l h
    rw [specDedupDoctors, if_pos ht, if_pos hh] at h
    cases hrec : specDedupDoctors (ds.filter (fun e => !pyEq e.id d.id)) with
    | ok rest =>
      rw [hrec] at h
      simp only [Except.map, Except.ok.injEq] at h
      rw [← h]
      exact ((ih rest hrec).trans
        (List.filter_sublist ds)).cons₂ d
    | error m => rw [hrec] at h; exact Except.noConfusion h
  | case3 d ds ht hh =>
    intro l h
    rw [specDedupDoctors, if_pos ht, if_neg hh] at h
    exact Except.noConfusion h
  | case4 d ds ht ih =>
    intro l h
    rw [specDedupDoctors, if_neg ht] at h
    exact (ih l h).trans (List.sublist_cons_self d ds)

/-- For a truthy id, the reference deduplication keeps exactly one
record with a Python-equal id when the input has any, and none
otherwise. -/
theorem specDedupDoctors_count (i : JVal) (hti : i.truthy = true) :
    ∀ (rows l : List Doctor), specDedupDoctors rows = .ok l →
      l.countP (fun d => pyEq d.id i) =
        (if rows.any (fun d => pyEq d.id i) then 1 else 0) := by
  intro rows
  induction rows using specDedupDoctors.induct with
  | case1 =>
    intro l h
    simp only [specDedupDoctors, Except.ok.injEq] at h
    simp [← h]
  | case2 d ds ht hh ih =>
    intro l h
    rw [specDedupDoctors, if_pos ht, if_pos hh] at h
    cases hrec : specDedupDoctors (ds.filter (fun e => !pyEq e.id d.id)) with
    | error m => rw [hrec] at h; exact Except.noConfusion h
    | ok rest =>
      rw [hrec] at h
      simp only [Except.map, Except.ok.injEq] at h
      rw [← h, List.countP_cons]
      by_cases hdi : pyEq d.id i = true
      · have hnone : (ds.filter (fun e => !pyEq e.id d.id)).any
            (fun d => pyEq d.id i) = false := by
          rw [← Bool.not_eq_true]
          simp only [List.any_eq_true, List.mem_filter, not_exists]
          rintro e ⟨⟨_, hkeep⟩, hei⟩
          have : pyEq e.id d.id = true :=
            pyEq_trans e.id i d.id hei (pyEq_comm d.id i ▸ hdi)
          rw [this] at hkeep
          simp at hkeep
        rw [ih rest hrec, hnone]
        simp [List.any_cons, hdi]
      · have hdi' : pyEq d.id i = false := Bool.not_eq_true _ ▸ hdi
        have hsame : (ds.filter (fun e => !pyEq e.id d.id)).any
            (fun d => pyEq d.id i) = ds.any (fun d => pyEq d.id i) := by
          rcases hany : ds.any (fun d => pyEq d.id i) with _ | _
          · rw [← Bool.not_eq_true] at hany ⊢
            simp only [List.any_eq_true, List.mem_filter, not_exists] at hany ⊢
            rintro e ⟨⟨he, _⟩, hei⟩
            exact hany e ⟨he, hei⟩
          · simp only [List.any_eq_true] at hany ⊢
            obtain ⟨e, he, hei⟩ := hany
            refine ⟨e, List.mem_filter.mpr ⟨he, ?_⟩, hei⟩
            rw [show pyEq e.id d.id = false from ?_]
            · rfl
            · rw [← Bool.not_eq_true]
              intro hed
              exact absurd
                (pyEq_trans d.id e.id i (pyEq_comm e.id d.id ▸ hed) hei) (by simp [hdi'])
        rw [ih rest hrec, hsame, List.any_cons, hdi', Bool.false_or]
        simp [hdi']
  | case3 d ds ht hh =>
    intro l h
    rw [specDedupDoctors, if_pos ht, if_neg hh] at h
    exact Except.noConfusion h
  | case4 d ds ht ih =>
    intro l h
    rw [specDedupDoctors, if_neg ht] at h
    have hdi : pyEq d.id i = false := by
      rw [← Bool.not_eq_true]
      intro he
      rw [pyEq_truthy d.id i he] at ht
      exact ht hti
    rw [ih l h, List.any_cons, hdi, Bool.false_or]

/-- Every record the reference deduplication keeps has a truthy id. -/
theorem specDedupDoctors_mem_truthy : ∀ (rows l : List Doctor),
    specDedupDoctors rows = .ok l → ∀ e ∈ l, e.id.truthy = true := by
  intro rows
  induction rows using specDedupDoctors.induct with
  | case1 =>
    intro l h
    simp only [specDedupDoctors, Except.ok.injEq] at h
    simp [← h]
  | case2 d ds ht hh ih =>
    intro l h e he
    rw [specDedupDoctors, if_pos ht, if_pos hh] at h
    cases hrec : specDedupDoctors (ds.filter (fun x => !pyEq x.id d.id)) with
    | error m => rw [hrec] at h; exact Except.noConfusion h
    | ok rest =>
      rw [hrec] at h
      simp only [Except.map, Except.ok.injEq] at h
      rw [← h] at he
      rcases List.mem_cons.mp he with rfl | hmem
      · exact ht
      · exact ih rest hrec e hmem
  | case3 d ds ht hh =>
    intro l h
    rw [specDedupDoctors, if_pos ht, if_neg hh] at h
    exact Except.noConfusion h
  | case4 d ds ht ih =>
    intro l h e he
    rw [specDedupDoctors, if_neg ht] at h
    exact ih l h e he

/-- Every record kept by the seen-set deduplication loop has a truthy
id. -/
theorem dedupDoctors_mem_truthy (rows : List Doctor) (seen : List JVal)
    (l : List Doctor) (h : dedupDoctors rows seen = .ok l)
    (e : Doctor) (he : e ∈ l) : e.id.truthy = true := by
  rw [dedupDoctors_eq_spec] at h
  exact specDedupDoctors_mem_truthy _ l h e he

/-- Dropping a falsy-id record does not change the deduplication
(its truthiness check short-circuits before any hashing). -/
theorem dedupDoctors_skip_falsy (d : Doctor) (rows : List Doctor)
    (seen : List JVal) (hf : d.id.truthy = false) :
    dedupDoctors (d :: rows) seen = dedupDoctors rows seen := by
  simp [dedupDoctors, hf]

/-- The seen-set loop returns a list exactly when no row has a truthy
unhashable id (every truthy id reached is hashed; falsy ids
short-circuit; deduplication never skips a later hashing). -/
theorem dedupDoctors_isOk_iff : ∀ (rows : List Doctor) (seen : List JVal),
    (dedupDoctors rows seen).isOk = true ↔
      ∀ d ∈ rows, d.id.truthy = true → d.id.hashable = true := by
  intro rows
  induction rows with
  | nil => intro seen; simp [dedupDoctors, Except.isOk, Except.toBool]
  | cons d ds ih =>
    intro seen
    simp only [List.forall_mem_cons]
    by_cases ht : d.id.truthy = true
    · by_cases hh : d.id.hashable = true
      · by_cases hseen : seen.any (fun x => pyEq x d.id) = true
        · rw [show dedupDoctors (d :: ds) seen = dedupDoctors ds seen from by
            simp [dedupDoctors, ht, hh, hseen]]
          simp [ih seen, ht, hh]
        · rw [show dedupDoctors (d :: ds) seen =
              (dedupDoctors ds (d.id :: seen)).map (fun rest => d :: rest) from by
            simp [dedupDoctors, ht, hh, hseen]]
          rw [isOk_map]
          simp [ih (d.id :: seen), ht, hh]
      · have hh' : d.id.hashable = false := Bool.not_eq_true _ ▸ hh
        rw [show dedupDoctors (d :: ds) seen =
            .error "TypeError: unhashable type" from by
          simp [dedupDoctors, ht, hh]]
        simp [Except.isOk, Except.toBool, ht, hh']
    · have ht' : d.id.truthy = false := Bool.not_eq_true _ ▸ ht
      rw [dedupDoctors_skip_falsy d ds seen ht']
      simp [ih seen, ht']

/-- Rows kept by the seen-set loop come from a successful run. -/
theorem dedupDoctors_mem_ok_truthy (rows : List Doctor) (seen : List JVal)
    (l : List Doctor) (h : dedupDoctors rows seen = .ok l) :
    ∀ e ∈ l, e.id.truthy = true :=
  fun e he => dedupDoctors_mem_truthy rows seen l h e he

/-- C10: every doctor record that `_normalize_doctors` outputs has a
truthy id, and an element whose resolved id is falsy (`None`, the
empty string, `0`, ...) is dropped from the output entirely: removing
it from the input leaves the result unchanged. -/
theorem c10_doctor_ids_truthy :
    (∀ (data : JVal) (l : List Doctor), _normalize_doctors data = .ok l →
      ∀ d ∈ l, d.id.truthy = true)
    ∧ (∀ (fs : Fields) (xs : List JVal), (doctorOfItem fs).id.truthy = false →
      _normalize_doctors (.arr (.obj fs :: xs)) = _normalize_doctors (.arr xs)) := by
  constructor
  · intro data l h d hd
    cases data with
    | arr xs =>
      simp only [_normalize_doctors] at h
      exact dedupDoctors_mem_ok_truthy _ _ _ h d hd
    | obj fs =>
      simp only [_normalize_doctors] at h
      cases hit : pyIterate (pyOr (dget fs "data") (pyOr (dget fs "items")
          (pyOr (dget fs "result") (pyOr (dget fs "doctors") (.arr []))))) with
      | some ys =>
        rw [hit] at h
        exact dedupDoctors_mem_ok_truthy _ _ _ h d hd
      | none =>
        rw [hit] at h
        simp at h
    | null => simp only [_normalize_doctors, Except.ok.injEq] at h; simp [← h] at hd
    | b x => simp only [_normalize_doctors, Except.ok.injEq] at h; simp [← h] at hd
    | n x => simp only [_normalize_doctors, Except.ok.injEq] at h; simp [← h] at hd
    | s x => simp only [_normalize_doctors, Except.ok.injEq] at h; simp [← h] at hd
  · intro fs xs hf
    simp only [_normalize_doctors]
    exact dedupDoctors_skip_falsy (doctorOfItem fs) (doctorRows xs) [] hf

/-- Witness for C10: the element with resolved id `""` is dropped
entirely. -/
theorem c10_doctor_ids_truthy_witness :
    (doctorOfItem [("ID", .s "")]).id.truthy = false
    ∧ _normalize_doctors (.arr [.obj [("ID", .s "")], .obj [("id", .s "5")]])
        = _normalize_doctors (.arr [.obj [("id", .s "5")]]) :=
  ⟨by decide, c10_doctor_ids_truthy.2 [("ID", .s "")] [.obj [("id", .s "5")]] (by decide)⟩

/-- Counterexample to C9 as stated: both elements resolve to the same
id — the empty string — yet the output contains no record at all for
that id (rather than exactly one, the first occurrence), because falsy
ids are dropped wholesale. -/
theorem c9_doctor_dedup_counterexample :
    (doctorOfItem [("ID", .s ""), ("name", .s "a")]).id
        = (doctorOfItem [("ID", .s ""), ("name", .s "b")]).id
    ∧ _normalize_doctors (.arr [.obj [("ID", .s ""), ("name", .s "a")],
                                .obj [("ID", .s ""), ("name", .s "b")]]) = .ok [] :=
  ⟨rfl, rfl⟩

/-- C9 (amended): the doctor normalizer deduplicates by resolved
truthy id under Python equality and hashing.  Its list branch equals
the reference deduplication `specDedupDoctors` (first occurrence of
each truthy hashable id kept, later Python-equal ids dropped, truthy
unhashable ids raising `TypeError`); whenever a list is returned it
has exactly one record per truthy id present in the input, and it is a
sublist of the pre-deduplication records, so the relative order of
first occurrences is preserved.  The concrete conjuncts: a repeated
unhashable id `[1]` makes the normalizer raise rather than
deduplicate, and the ids `1` and `true` are the same id in Python, so
only the first record survives. -/
theorem c9_doctor_dedup_amended :
    (∀ xs : List JVal,
      _normalize_doctors (.arr xs) = specDedupDoctors (doctorRows xs))
    ∧ (∀ (rows : List Doctor) (i : JVal), i.truthy = true →
        ∀ l : List Doctor, specDedupDoctors rows = .ok l →
          l.countP (fun d => pyEq d.id i) =
            (if rows.any (fun d => pyEq d.id i) then 1 else 0))
    ∧ (∀ (rows l : List Doctor),
        specDedupDoctors rows = .ok l → l.Sublist rows)
    ∧ (_normalize_doctors (.arr [.obj [("id", .arr [.n 1])],
         .obj [("id", .arr [.n 1])]])).isOk = false
    ∧ _normalize_doctors (.arr [.obj [("id", .n 1)], .obj [("id", .b true)]])
        = .ok [⟨.n 1, .s "", [("id", .n 1)]⟩] := by
  refine ⟨?_, fun rows i hti => specDedupDoctors_count i hti rows,
    specDedupDoctors_sublist, rfl, rfl⟩
  intro xs
  simp only [_normalize_doctors]
  rw [dedupDoctors_eq_spec]
  congr 1
  simp

/-- Witness for C9 (amended): with ids `1` and `true` — the same id
under Python equality — the deduplicated output has exactly one
record for it. -/
theorem c9_doctor_dedup_amended_witness :
    ([⟨JVal.n 1, JVal.s "", [("id", JVal.n 1)]⟩] : List Doctor).countP
      (fun d => pyEq d.id (.b true)) = 1 := by
  have h1 : specDedupDoctors
      (doctorRows [.obj [("id", .n 1)], .obj [("id", .b true)]])
      = .ok [⟨.n 1, .s "", [("id", .n 1)]⟩] :=
    (c9_doctor_dedup_amended.1 [.obj [("id", .n 1)], .obj [("id", .b true)]]).symm.trans rfl
  have h2 := c9_doctor_dedup_amended.2.1
    (doctorRows [.obj [("id", .n 1)], .obj [("id", .b true)]])
    (.b true) (by decide) [⟨.n 1, .s "", [("id", .n 1)]⟩] h1
  rw [if_pos (by decide)] at h2
  exact h2

/-- Counterexample to C5 as stated: the doctors and records
normalizers do raise.  On a dict whose wrapper key holds a truthy
non-iterable value the Python `for` loop raises `TypeError`
(modelled as `Except.error`), so the normalizer neither returns a
list nor merely skips the malformed value. -/
theorem c5_normalizers_counterexample :
    (_normalize_doctors (.obj [("data", .n 5)])).isOk = false
    ∧ (_normalize_records (.obj [("records", .n 7)])).isOk = false := ⟨rfl, rfl⟩

/-- C5 (amended): the directions, services and slots normalizers
return a list on every JSON input and never raise, and all five
normalizers skip non-dict elements individually; the doctors
normalizer raises `TypeError` exactly when a dict input's
Python-`or` wrapper chain (`data`/`items`/`result`/`doctors`,
defaulting to `[]`) selects a truthy non-iterable value, or when any
resolved doctor id among the elements it iterates is truthy but
unhashable (a list or dict) — adding it to the seen set hashes it;
the records normalizer raises exactly when its wrapper chain
(`records`/`items`/`data`/`result`) selects a truthy non-iterable
value. -/
theorem c5_normalizers_amended :
    (∀ xs : List JVal,
      ((_normalize_doctors (.arr xs)).isOk = true ↔
        ∀ d ∈ doctorRows xs, d.id.truthy = true → d.id.hashable = true))
    ∧ (∀ fs : Fields,
      ((_normalize_doctors (.obj fs)).isOk = true ↔
        ∃ ys, pyIterate (pyOr (dget fs "data") (pyOr (dget fs "items")
            (pyOr (dget fs "result") (pyOr (dget fs "doctors") (.arr [])))))
            = some ys
          ∧ ∀ d ∈ doctorRows ys, d.id.truthy = true → d.id.hashable = true))
    ∧ (∀ data : JVal, (∀ xs, data ≠ .arr xs) → (∀ fs, data ≠ .obj fs) →
        _normalize_doctors data = .ok [])
    ∧ (∀ data : JVal,
      ((_normalize_records data).isOk = false ↔
        ∃ fs, data = .obj fs ∧
          pyIterate (pyOr (dget fs "records") (pyOr (dget fs "items")
            (pyOr (dget fs "data") (pyOr (dget fs "result") (.arr [])))))
            = Option.none))
    ∧ (∀ (x : JVal) (xs : List JVal), x.isObj = false →
        _normalize_directions (.arr (x :: xs)) = _normalize_directions (.arr xs)
        ∧ _normalize_services (.arr (x :: xs)) = _normalize_services (.arr xs)
        ∧ _normalize_slots (.arr (x :: xs)) = _normalize_slots (.arr xs)
        ∧ _normalize_doctors (.arr (x :: xs)) = _normalize_doctors (.arr xs)
        ∧ recRows (x :: xs) = recRows xs) := by
  refine ⟨?_, ?_, ?_, ?_, ?_⟩
  · intro xs
    simp only [_normalize_doctors]
    exact dedupDoctors_isOk_iff (doctorRows xs) []
  · intro fs
    simp only [_normalize_doctors]
    cases hit : pyIterate (pyOr (dget fs "data") (pyOr (dget fs "items")
        (pyOr (dget fs "result") (pyOr (dget fs "doctors") (.arr []))))) with
    | some ys =>
      dsimp only
      rw [dedupDoctors_isOk_iff (doctorRows ys) []]
      constructor
      · intro h
        exact ⟨ys, rfl, h⟩
      · rintro ⟨zs, hz, hall⟩
        injection hz with hz
        subst hz
        exact hall
    | none =>
      simp [Except.isOk, Except.toBool]
  · intro data harr hobj
    cases data with
    | arr xs => exact absurd rfl (harr xs)
    | obj fs => exact absurd rfl (hobj fs)
    | null => rfl
    | b x => rfl
    | n x => rfl
    | s x => rfl
  · intro data
    cases data with
    | obj fs =>
      simp only [_normalize_records]
      cases hit : pyIterate (pyOr (dget fs "records") (pyOr (dget fs "items")
          (pyOr (dget fs "data") (pyOr (dget fs "result") (.arr []))))) with
      | some ys => simp [hit, Except.isOk, Except.toBool, JVal.obj.injEq]
      | none => simp [hit, Except.isOk, Except.toBool, JVal.obj.injEq]
    | null => simp [_normalize_records, Except.isOk, Except.toBool]
    | b x => simp [_normalize_records, Except.isOk, Except.toBool]
    | n x => simp [_normalize_records, Except.isOk, Except.toBool]
    | s x => simp [_normalize_records, Except.isOk, Except.toBool]
    | arr xs =>
      simp only [_normalize_records]
      cases xs with
      | nil => simp [Except.isOk, Except.toBool]
      | cons y ys =>
        cases ys with
        | cons z zs => cases y <;> simp [Except.isOk, Except.toBool]
        | nil =>
          cases y with
          | obj gs =>
            cases hr : dget gs "records" <;>
              simp [Except.isOk, Except.toBool, hr]
          | null => simp [Except.isOk, Except.toBool]
          | b w => simp [Except.isOk, Except.toBool]
          | n w => simp [Except.isOk, Except.toBool]
          | s w => simp [Except.isOk, Except.toBool]
          | arr ws => simp [Except.isOk, Except.toBool]
  · intro x xs hx
    cases x with
    | obj fs => simp [JVal.isObj] at hx
    | null => exact ⟨rfl, rfl, rfl, rfl, rfl⟩
    | b y => exact ⟨rfl, rfl, rfl, rfl, rfl⟩
    | n y => exact ⟨rfl, rfl, rfl, rfl, rfl⟩
    | s y => exact ⟨rfl, rfl, rfl, rfl, rfl⟩
    | arr ys => exact ⟨rfl, rfl, rfl, rfl, rfl⟩

/-- Witness for C5 (amended): a non-dict element is skipped without
affecting the rest of the listing. -/
theorem c5_normalizers_amended_witness :
    (JVal.n 9).isObj = false
    ∧ _normalize_directions (.arr [.n 9, .obj [("id", .s "3")]])
        = _normalize_directions (.arr [.obj [("id", .s "3")]]) := by
  refine ⟨by decide, ?_⟩
  exact (c5_normalizers_amended.2.2.2.2 (.n 9) [.obj [("id", .s "3")]] (by decide)).1

/-- C6: slot selection accepts a 1-based index — whenever the first
`\b(\d+)\b` match of the message is `k` with `1 ≤ k ≤ |last_slots|`,
the `k`-th stored slot is selected — or a substring match against a
slot's start time.  With the two slots of the spec's scenario, the
message `"2"` selects the second slot, and the message
`"2024-01-01 09:00"` (whose first number `2024` is out of range as an
index) selects the first slot via the substring branch. -/
theorem c6_slot_selection :
    (∀ (slots : List Fields) (message : String) (k : Nat),
      findNumberToken message = some k → 1 ≤ k → k ≤ slots.length →
      _match_slot_from_message slots message = (slots[k - 1]?).map selOfSlot)
    ∧ _match_slot_from_message
        [[("startAt", .s "2024-01-01 09:00")], [("startAt", .s "2024-01-02 10:00")]]
        "2" = some ⟨.s "2024-01-02 10:00", .null, .obj []⟩
    ∧ _match_slot_from_message
        [[("startAt", .s "2024-01-01 09:00")], [("startAt", .s "2024-01-02 10:00")]]
        "2024-01-01 09:00" = some ⟨.s "2024-01-01 09:00", .null, .obj []⟩ := by
  refine ⟨?_, rfl, rfl⟩
  intro slots message k hk h1 h2
  have hne : slots.isEmpty = false := by
    cases slots with
    | nil => simp at h2; omega
    | cons a l => simp
  simp only [_match_slot_from_message, hne, Bool.false_eq_true, if_false, hk]
  rw [dif_pos ⟨h1, by omega⟩]
  rw [List.getElem?_eq_getElem (by omega)]
  simp [List.get_eq_getElem]

/-- Witness for C6: applying the index branch to the message `"1"`. -/
theorem c6_slot_selection_witness :
    _match_slot_from_message
        [[("startAt", .s "2024-01-01 09:00")], [("startAt", .s "2024-01-02 10:00")]]
        "1"
      = ([[("startAt", JVal.s "2024-01-01 09:00")],
          [("startAt", JVal.s "2024-01-02 10:00")]][0]?).map selOfSlot :=
  c6_slot_selection.1
    [[("startAt", .s "2024-01-01 09:00")], [("startAt", .s "2024-01-02 10:00")]]
    "1" 1 (by decide) (by decide) (by decide)

/-- Counterexample to C7 as stated: a confirm-stage message that
contains the cancel word `"адмена"` but also the affirmative word
`"добра"` does not abort — the affirmative check runs first, so the
branch finalizes the booking and clears none of the booking fields. -/
theorem c7_confirm_abort_counterexample :
    strIn "адмена" (pyLower "добра, адмена") = true
    ∧ confirmStage
        { token := some "t", patient_id := some "7", insurer := some "ACME",
          direction_id := some "2", doctor_id := some "42",
          service_id := some "12", description := Option.none,
          slot := Option.none, goal := some "create_record",
          stage := some "confirm", last_directions := [], last_doctors := [],
          last_services := [], last_slots := [[("startAt", .s "x")]],
          last_records := [] }
        "добра, адмена"
      = ({ token := some "t", patient_id := some "7", insurer := some "ACME",
           direction_id := some "2", doctor_id := some "42",
           service_id := some "12", description := Option.none,
           slot := Option.none, goal := some "create_record",
           stage := some "confirm", last_directions := [], last_doctors := [],
           last_services := [], last_slots := [[("startAt", .s "x")]],
           last_records := [] }, .finalize) := ⟨rfl, rfl⟩

/-- C7 (amended): in the confirm stage a message that contains a
negative/cancel word (`"адмена"` or `"не"`) and no affirmative word
aborts the booking: it clears `direction_id`, `doctor_id`,
`service_id`, `description`, `slot`, `goal`, `stage` and the four
cached candidate lists, while `token`, `patient_id` and `last_records`
keep their previous values; `insurer` keeps its previous value unless
the message itself names an insurer, which is applied before the
abort. -/
theorem c7_confirm_abort_amended :
    ∀ (st : AgentState) (message : String),
      _is_confirmation (pyLower message) = false →
      (strIn "адмена" (pyLower message) || strIn "не" (pyLower message)) = true →
      (confirmStage st message).2 = .aborted
      ∧ (confirmStage st message).1.token = st.token
      ∧ (confirmStage st message).1.patient_id = st.patient_id
      ∧ (confirmStage st message).1.insurer =
          (match _extract_insurer message with
           | some x => some x
           | Option.none => st.insurer)
      ∧ (confirmStage st message).1.direction_id = Option.none
      ∧ (confirmStage st message).1.doctor_id = Option.none
      ∧ (confirmStage st message).1.service_id = Option.none
      ∧ (confirmStage st message).1.description = Option.none
      ∧ (confirmStage st message).1.slot = Option.none
      ∧ (confirmStage st message).1.goal = Option.none
      ∧ (confirmStage st message).1.stage = Option.none
      ∧ (confirmStage st message).1.last_directions = []
      ∧ (confirmStage st message).1.last_doctors = []
      ∧ (confirmStage st message).1.last_services = []
      ∧ (confirmStage st message).1.last_slots = []
      ∧ (confirmStage st message).1.last_records = st.last_records := by
  intro st message h1 h2
  cases hi : _extract_insurer message <;>
    cases hd : _extract_description message <;>
      simp [confirmStage, hi, hd, h1, h2, reset_flow]

/-- Witness for C7 (amended) at the bare cancel message `"адмена"`. -/
theorem c7_confirm_abort_amended_witness :
    (confirmStage
        ⟨some "t", some "7", some "ACME", some "2", some "42", some "12",
         Option.none, Option.none, some "create_record", some "confirm",
         [], [], [], [], []⟩ "адмена").2 = ConfirmOutcome.aborted :=
  (c7_confirm_abort_amended
    ⟨some "t", some "7", some "ACME", some "2", some "42", some "12",
     Option.none, Option.none, some "create_record", some "confirm",
     [], [], [], [], []⟩ "адмена" (by decide) (by decide)).1

/-- The lexicographic code-point order on character lists is total. -/
theorem charsLe_total : ∀ a b : List Char, charsLe a b = true ∨ charsLe b a = true := by
  intro a
  induction a with
  | nil => intro b; left; rfl
  | cons x xs ih =>
    intro b
    cases b with
    | nil => right; rfl
    | cons y ys =>
      by_cases hxy : x = y
      · subst hxy
        rcases ih ys with h | h
        · left; simpa [charsLe] using h
        · right; simpa [charsLe] using h
      · rcases Nat.lt_trichotomy x.toNat y.toNat with h | h | h
        · left
          have hlt : x < y := h
          simp [charsLe, hxy, hlt]
        · exact absurd (Char.eq_of_val_eq (UInt32.ext h)) hxy
        · right
          have hlt : y < x := h
          have hyx : ¬y = x := fun e => hxy e.symm
          simp [charsLe, hyx, hlt]

/-- The lexicographic code-point order on character lists is
transitive. -/
theorem charsLe_trans : ∀ a b c : List Char,
    charsLe a b = true → charsLe b c = true → charsLe a c = true := by
  intro a
  induction a with
  | nil => intro b c _ _; rfl
  | cons x xs ih =>
    intro b c hab hbc
    cases b with
    | nil => simp [charsLe] at hab
    | cons y ys =>
      cases c with
      | nil => simp [charsLe] at hbc
      | cons z zs =>
        by_cases hxy : x = y
        · subst hxy
          simp only [charsLe, if_pos rfl] at hab
          by_cases hxz : x = z
          · subst hxz
            simp only [charsLe, if_pos rfl] at hbc ⊢
            exact ih ys zs hab hbc
          · simp only [charsLe, if_neg hxz] at hbc ⊢
            exact hbc
        · simp only [charsLe, if_neg hxy, decide_eq_true_eq] at hab
          by_cases hyz : y = z
          · subst hyz
            simp only [charsLe, if_neg hxy, decide_eq_true_eq]
            exact hab
          · simp only [charsLe, if_neg hyz, decide_eq_true_eq] at hbc
            have hxz : x < z := lt_trans hab hbc
            have hxz' : ¬x = z := ne_of_lt hxz
            simp only [charsLe, if_neg hxz', decide_eq_true_eq]
            exact hxz

instance : IsTrans String StrLeRel :=
  ⟨fun a b c hab hbc => charsLe_trans a.data b.data c.data hab hbc⟩

instance : IsTotal String StrLeRel :=
  ⟨fun a b => charsLe_total a.data b.data⟩

/-- `sortedStrings` sorts with respect to the code-point order. -/
theorem sortedStrings_sorted (l : List String) :
    List.Sorted StrLeRel (sortedStrings l) :=
  List.sorted_insertionSort StrLeRel l

/-- `sortedStrings` is a permutation of its input. -/
theorem sortedStrings_perm (l : List String) : (sortedStrings l).Perm l :=
  List.perm_insertionSort StrLeRel l

/-- Set insertion preserves the no-duplicates invariant. -/
theorem addIfNew_nodup (l : List String) (x : String) (h : l.Nodup) :
    (addIfNew l x).Nodup := by
  unfold addIfNew
  split
  · exact h
  · rename_i hmem
    simp only [List.any_eq_true, beq_iff_eq, not_exists] at hmem
    refine List.Nodup.append h (List.nodup_singleton x) ?_
    rw [List.disjoint_singleton]
    intro hx
    exact absurd rfl (by push_neg at hmem; exact (hmem x hx))

/-- Folding set insertions preserves the no-duplicates invariant. -/
theorem foldl_addIfNew_nodup (ids : List String) :
    ∀ l : List String, l.Nodup → (ids.foldl addIfNew l).Nodup := by
  induction ids with
  | nil => intro l h; exact h
  | cons i is ih => intro l h; exact ih (addIfNew l i) (addIfNew_nodup l i h)

/-- One entry-loop step preserves the no-duplicates invariant of the
collected patient ids. -/
theorem processEntry_nodup (acc : HarAcc) (entry : JVal) (acc2 : HarAcc)
    (h : processEntry acc entry = .ok acc2) (hn : acc.patient_ids.Nodup) :
    acc2.patient_ids.Nodup := by
  unfold processEntry at h
  dsimp only at h
  repeat' split at h
  all_goals
    first
    | exact Except.noConfusion h
    | (simp only [Except.ok.injEq] at h
       subst h
       first
       | exact addIfNew_nodup _ _ (foldl_addIfNew_nodup _ _ hn)
       | exact foldl_addIfNew_nodup _ _ hn)

/-- The entry loop preserves the no-duplicates invariant. -/
theorem processEntries_nodup : ∀ (entries : List JVal) (acc acc2 : HarAcc),
    processEntries acc entries = .ok acc2 → acc.patient_ids.Nodup →
    acc2.patient_ids.Nodup := by
  intro entries
  induction entries with
  | nil =>
    intro acc acc2 h hn
    simp only [processEntries, Except.ok.injEq] at h
    rwa [← h]
  | cons e es ih =>
    intro acc acc2 h hn
    simp only [processEntries] at h
    cases he : processEntry acc e with
    | error m => rw [he] at h; simp at h
    | ok acc1 =>
      rw [he] at h
      exact ih acc1 acc2 h (processEntry_nodup acc e acc1 he hn)

/-- Counterexample to C8 as stated.  First conjunct: on a file whose
content parses as JSON but is not an object (here `[]`), the parser
raises `AttributeError` (modelled as `Except.error`) instead of never
raising.  Second conjunct: of the two patient ids observed in the
first form body (`1` and `2`) only the first regex match `"1"` is
collected, and `record_fields` is the field-name list of the *last*
booking-creation request only — `patientAPIId` and `Ins_name` from the
first request are gone — not the set of field names seen on such
requests. -/
theorem c8_har_counterexample :
    (parse_har_for_patient (.parsed (.arr []))).isOk = false
    ∧ parse_har_for_patient (.parsed (.obj [("log", .obj [("entries", .arr [
        .obj [("request", .obj [("url", .s "https://o.a/record/create"),
          ("method", .s "POST"),
          ("postData", .obj [("text", .s "patientAPIId=1&patientAPIId=2&Ins_name=ACME")])])],
        .obj [("request", .obj [("url", .s "https://o.a/record/create"),
          ("method", .s "POST"),
          ("postData", .obj [("text", .s "doctor=9&startAt=s")])])]
      ])])]))
      = .ok ⟨["1"], some "ACME", ["doctor", "startAt"]⟩ := ⟨rfl, rfl⟩

/-- C8 (amended): the HAR parser returns the de-duplicated, sorted set
of patient-identifier values taken from query parameters (all
occurrences) and from form bodies (first regex match per body), the
last-seen insurer value from booking-creation requests, and the form
field names of the last such request; a missing or JSON-unparseable
file yields the all-empty result without raising, but parseable
content that is not HAR-object-shaped raises.  Conjunct three states
sortedness/deduplication for every successfully parsed input; the
final conjunct runs a three-entry capture end to end. -/
theorem c8_har_parser_amended :
    parse_har_for_patient .missing = .ok ⟨[], Option.none, []⟩
    ∧ parse_har_for_patient .unparseable = .ok ⟨[], Option.none, []⟩
    ∧ (∀ (j : JVal) (r : HarResult), parse_har_for_patient (.parsed j) = .ok r →
        List.Pairwise (fun a b => strLe a b = true ∧ a ≠ b) r.patient_ids)
    ∧ parse_har_for_patient (.parsed (.obj [("log", .obj [("entries", .arr [
        .obj [("request", .obj [("url", .s "https://o.a/x?patientAPIId=22&patientAPIId=3"),
          ("method", .s "GET")])],
        .obj [("request", .obj [("url", .s "https://o.a/record/create"),
          ("method", .s "POST"),
          ("postData", .obj [("text", .s "patientAPIId=5&token=t&Ins_name=ACME")])])],
        .obj [("request", .obj [("url", .s "https://o.a/record/create"),
          ("method", .s "POST"),
          ("postData", .obj [("text", .s "doctor=9&startAt=s")])])]
      ])])]))
      = .ok ⟨["22", "3", "5"], some "ACME", ["doctor", "startAt"]⟩ := by
  refine ⟨rfl, rfl, ?_, rfl⟩
  intro j r h
  unfold parse_har_for_patient at h
  cases j with
  | obj fs =>
    dsimp only at h
    cases hlog : dgetD fs "log" (.obj []) with
    | obj lfs =>
      rw [hlog] at h
      dsimp only at h
      cases hit : pyIterate (dgetD lfs "entries" (.arr [])) with
      | some entries =>
        rw [hit] at h
        dsimp only at h
        cases hpe : processEntries ⟨[], Option.none, Option.none⟩ entries with
        | ok acc =>
          rw [hpe] at h
          simp only [Except.ok.injEq] at h
          have hacc : acc.patient_ids.Nodup :=
            processEntries_nodup entries ⟨[], Option.none, Option.none⟩ acc hpe
              List.nodup_nil
          rw [← h]
          have hsorted := sortedStrings_sorted acc.patient_ids
          have hnodup : (sortedStrings acc.patient_ids).Nodup :=
            ((sortedStrings_perm acc.patient_ids).nodup_iff).mpr hacc
          exact hsorted.and hnodup
        | error m => rw [hpe] at h; exact Except.noConfusion h
      | none =>
        rw [hit] at h
        exact Except.noConfusion h
    | null => rw [hlog] at h; exact Except.noConfusion h
    | b x => rw [hlog] at h; exact Except.noConfusion h
    | n x => rw [hlog] at h; exact Except.noConfusion h
    | s x => rw [hlog] at h; exact Except.noConfusion h
    | arr ys => rw [hlog] at h; exact Except.noConfusion h
  | null => exact Except.noConfusion h
  | b x => exact Except.noConfusion h
  | n x => exact Except.noConfusion h
  | s x => exact Except.noConfusion h
  | arr xs => exact Except.noConfusion h

/-- Witness for C8 (amended): the ids collected from the three-entry
capture are pairwise sorted and distinct. -/
theorem c8_har_parser_amended_witness :
    List.Pairwise (fun a b => strLe a b = true ∧ a ≠ b)
      (HarResult.mk ["22", "3", "5"] (some "ACME") ["doctor", "startAt"]).patient_ids :=
  c8_har_parser_amended.2.2.1 (.obj [("log", .obj [("entries", .arr [
      .obj [("request", .obj [("url", .s "https://o.a/x?patientAPIId=22&patientAPIId=3"),
        ("method", .s "GET")])],
      .obj [("request", .obj [("url", .s "https://o.a/record/create"),
        ("method", .s "POST"),
        ("postData", .obj [("text", .s "patientAPIId=5&token=t&Ins_name=ACME")])])],
      .obj [("request", .obj [("url", .s "https://o.a/record/create"),
        ("method", .s "POST"),
        ("postData", .obj [("text", .s "doctor=9&startAt=s")])])]
    ])])])
    ⟨["22", "3", "5"], some "ACME", ["doctor", "startAt"]⟩ rfl

end AmAgent
